import Mathlib

/- Verification development for the retrieval/matching core of the
   Product Highlighter browser extension.

   The JavaScript source is embedded shallowly: strings are lists of `Char`,
   JS numbers are idealised as exact rationals (`ℚ`) or reals (`ℝ`) where
   square roots appear, fallible asynchronous operations return
   `Except String`.  The inputs of interest are ASCII, where the models of
   `toLowerCase`, `\w`, `\s` and `\d` below agree with JavaScript. -/

namespace PH

/-! JS string primitives shared by all components. -/

/-- JS regex `\w`: ASCII letters, digits and underscore. -/
def jsIsWordChar (c : Char) : Bool :=
  ('a' ≤ c && c ≤ 'z') || ('A' ≤ c && c ≤ 'Z') || ('0' ≤ c && c ≤ '9') || c == '_'

/-- JS regex `\d`. -/
def jsIsDigit (c : Char) : Bool := '0' ≤ c && c ≤ '9'

/-- JS regex `\s` (whitespace). -/
def jsIsSpace (c : Char) : Bool := c.isWhitespace

/-- JS `String.prototype.toLowerCase` (ASCII case mapping). -/
def lowerL (cs : List Char) : List Char := cs.map Char.toLower

/-- Does the text start with the given pattern? -/
def startsWithL : List Char → List Char → Bool
  | [], _ => true
  | _ :: _, [] => false
  | p :: ps, c :: cs => p == c && startsWithL ps cs

/-- JS `String.prototype.includes`: the pattern occurs as a substring. -/
def containsSubL (p : List Char) : List Char → Bool
  | [] => startsWithL p []
  | c :: cs => startsWithL p (c :: cs) || containsSubL p cs

/-- The pattern matches here and the character right after it (if any) is a
    non-word character, as required for the closing `\b`. -/
def wholeHereB (w t : List Char) : Bool :=
  startsWithL w t &&
    (match t.drop w.length with
     | [] => true
     | c :: _ => !jsIsWordChar c)

/-- Scan for a `\b`-delimited occurrence; `prevW` tells whether the character
    just before the current position is a word character. -/
def wholeWordAux (w : List Char) : List Char → Bool → Bool
  | [], prevW => !prevW && wholeHereB w []
  | c :: cs, prevW =>
    (!prevW && wholeHereB w (c :: cs)) || wholeWordAux w cs (jsIsWordChar c)

/-- JS `new RegExp('\\b' + w + '\\b').test(t)` for a pattern `w` that starts
    and ends with word characters (true for every vocabulary entry used). -/
def hasWholeWordL (w t : List Char) : Bool := wholeWordAux w t false

/-- JS `String.prototype.trim`. -/
def trimL (cs : List Char) : List Char :=
  ((cs.dropWhile jsIsSpace).reverse.dropWhile jsIsSpace).reverse

def trimS (s : String) : String := String.mk (trimL s.data)

/-- Maximal runs of characters satisfying `p`; this models splitting on the
    complement (`split(/\W+/)` resp. `split(/\s+/)`), minus the empty
    fragments, which every caller filters away by a length bound. -/
def runsByAux (p : Char → Bool) : List Char → List Char → List (List Char)
  | [], acc => if acc.isEmpty then [] else [acc.reverse]
  | c :: cs, acc =>
    if p c then runsByAux p cs (c :: acc)
    else if acc.isEmpty then runsByAux p cs []
    else acc.reverse :: runsByAux p cs []

def runsBy (p : Char → Bool) (cs : List Char) : List (List Char) := runsByAux p cs []

/-- Numeric value of a digit run. -/
def digitsVal (ds : List Char) : ℕ :=
  ds.foldl (fun a c => 10 * a + (c.toNat - 48)) 0

/-- JS `parseFloat` restricted to the shapes produced by the price regexes:
    a leading digit run, optionally followed by a dot and more digits
    (a comma or any other character terminates the parse); anything that does
    not start with a digit — in particular a currency token — yields `NaN`,
    modelled as `none`. -/
def jsParseFloatQ (cs : List Char) : Option ℚ :=
  let ds := cs.takeWhile jsIsDigit
  if ds.isEmpty then none
  else
    match cs.drop ds.length with
    | '.' :: r2 =>
      let fs := r2.takeWhile jsIsDigit
      some ((digitsVal ds : ℚ) + (digitsVal fs : ℚ) / (10 : ℚ) ^ fs.length)
    | _ => some (digitsVal ds : ℚ)

/-- JS `String.prototype.replace(',', '.')` (first occurrence only). -/
def replaceFirstComma : List Char → List Char
  | [] => []
  | c :: cs => if c == ',' then '.' :: cs else c :: replaceFirstComma cs

/-- JS 32-bit signed integer coercion (`| 0` / `& hash`). -/
def toInt32 (z : ℤ) : ℤ := (z + 2 ^ 31) % 2 ^ 32 - 2 ^ 31

/-- JS `Array.prototype.join(sep)`. -/
def joinSep (sep : String) : List String → String
  | [] => ""
  | [x] => x
  | x :: xs => x ++ sep ++ joinSep sep xs

/-! The `ProductRAGSystem` class: fallback embedding engine, cosine
    similarity, chunking pipeline, similarity retrieval and the RAG
    orchestrator. -/

namespace RAG

/-! Fallback embedding (`generateFallbackEmbedding`). -/

def footwearKws : List String :=
  ["sneaker", "sneakers", "shoe", "shoes", "boot", "boots", "sandal",
   "sandals", "trainer", "trainers", "runner", "running"]

def clothingKws : List String :=
  ["shirt", "dress", "pant", "pants", "jean", "jeans", "jacket", "coat",
   "sweater", "hoodie"]

def colorKws : List String :=
  ["white", "black", "grey", "gray", "red", "blue", "green", "brown",
   "beige", "navy", "yellow", "pink", "purple", "orange"]

def brandKws : List String :=
  ["nike", "adidas", "puma", "converse", "vans", "reebok", "jordan",
   "tommy", "calvin", "ralph", "polo"]

def materialKws : List String :=
  ["leather", "cotton", "denim", "wool", "silk", "canvas", "suede", "mesh",
   "polyester"]

def styleKws : List String :=
  ["casual", "formal", "sport", "athletic", "vintage", "classic", "modern",
   "trendy"]

def genderKws : List String :=
  ["men", "women", "mens", "womens", "male", "female", "unisex"]

/-- Number of keywords of a category that occur in the cleaned text; the
    category score of the source is this count times the category weight. -/
def countMatches (kws : List String) (cleanText : List Char) : ℕ :=
  kws.countP (fun k => containsSubL k.data cleanText)

/-- The ten embedding slots of one category: the category score spread with
    decreasing weight `1 - i * 0.1`. -/
def catBlock (cleanText : List Char) (kws : List String) (w : ℚ) : List ℚ :=
  (List.range 10).map
    (fun i => w * (countMatches kws cleanText : ℚ) * (1 - (i : ℚ) / 10))

/-- The `hashWord` rolling hash: `hash = ((hash << 5) - hash) + code`
    reduced to a 32-bit signed integer at each step, then `Math.abs`. -/
def hashWord (w : List Char) : ℕ :=
  (w.foldl (fun h c => toInt32 (toInt32 (h * 32) - h + (c.toNat : ℤ))) 0).natAbs

/-- The fifty word-feature slots: every content word (length > 2) adds `0.5`
    at slot `hashWord % 50`, so slot `h` holds `0.5` times the number of
    words hashing to `h`. -/
def wordSlots (cleanText : List Char) : List ℚ :=
  let ws := (runsBy jsIsWordChar cleanText).filter (fun w => 2 < w.length)
  (List.range 50).map
    (fun h => (ws.countP (fun w => hashWord w % 50 == h) : ℚ) * (1 / 2))

/-- The raw 300-dimensional fallback vector before normalisation: seven
    category blocks of ten slots (indices 0-69), fifty word-feature slots
    (indices 70-119), and untouched zeros. -/
def rawFallbackEmbedding (text : String) : List ℚ :=
  let ct := lowerL text.data
  catBlock ct footwearKws 4 ++ catBlock ct clothingKws 4 ++
  catBlock ct colorKws (7 / 2) ++ catBlock ct brandKws (5 / 2) ++
  catBlock ct materialKws 2 ++ catBlock ct styleKws (3 / 2) ++
  catBlock ct genderKws 1 ++ wordSlots ct ++ List.replicate 180 (0 : ℚ)

def sumSq (l : List ℝ) : ℝ := (l.map (fun x => x * x)).sum

/-- The elementwise cast of the rational model vector into the reals. -/
def toRealList (l : List ℚ) : List ℝ := l.map Rat.cast

/-- Euclidean norm of a vector, as computed by the source's
    `Math.sqrt(embedding.reduce((sum, val) => sum + val * val, 0))`. -/
noncomputable def l2norm (l : List ℝ) : ℝ := Real.sqrt (sumSq l)

/-- `generateFallbackEmbedding`: the raw vector, divided by its norm when
    the norm is positive. -/
noncomputable def generateFallbackEmbedding (text : String) : List ℝ :=
  let raw : List ℝ := toRealList (rawFallbackEmbedding text)
  let norm := l2norm raw
  if 0 < norm then raw.map (fun x => x / norm) else raw

/-! Cosine similarity.  The repository contains two implementations: the
    one in `ProductRAGSystem` loops over the minimum of the two lengths;
    the one in `VectorProductSearch` loops over the first vector's length
    and therefore reads the second vector out of range whenever the first
    is strictly longer.  Both are modelled below. -/

open Classical in
/-- `ProductRAGSystem.cosineSimilarity`: dot product and both norms
    accumulated over the common prefix of the two vectors, with a
    zero-norm guard. -/
noncomputable def cosineSimilarity (v1 v2 : List ℝ) : ℝ :=
  let n := min v1.length v2.length
  let dot := ∑ i in Finset.range n, v1.getD i 0 * v2.getD i 0
  let norm1 := Real.sqrt (∑ i in Finset.range n, v1.getD i 0 * v1.getD i 0)
  let norm2 := Real.sqrt (∑ i in Finset.range n, v2.getD i 0 * v2.getD i 0)
  if norm1 = 0 ∨ norm2 = 0 then 0 else dot / (norm1 * norm2)

inductive ChunkKind
  | title_brand
  | attributes
  | description
deriving DecidableEq, Repr

/-- A chunk as stored by the pipeline; the nested display metadata, the
    domain and the timestamp are omitted as no claim mentions them. -/
structure PChunk where
  productId : String
  kind : ChunkKind
  content : String
  chunkIndex : Option ℕ := none
  embedding : List ℝ := []

/-- The rich product context built by `createProductContext`. -/
structure ProductContext where
  title : String
  brand : String
  price : String
  description : String
  productType : String
  colors : List String
  materials : List String
  style : List String
  gender : String
  fullText : String

def typesVocab : List String :=
  ["sneaker", "shoe", "boot", "sandal", "heel", "flat", "trainer", "runner",
   "dress", "shirt", "pant", "jacket", "coat"]

def ragColorsVocab : List String :=
  ["white", "black", "red", "blue", "green", "yellow", "pink", "purple",
   "orange", "brown", "grey", "gray", "beige", "navy"]

def ragMaterialsVocab : List String :=
  ["leather", "cotton", "denim", "wool", "silk", "canvas", "suede", "mesh"]

def ragStylesVocab : List String :=
  ["casual", "formal", "sport", "athletic", "vintage", "classic", "modern"]

/-- `extractProductType`: first matching type noun, else `"unknown"`. -/
def extractProductType (text : String) : String :=
  ((typesVocab.find? (fun t => containsSubL t.data (lowerL text.data))).getD
    ("unknown"))

def extractColorsR (text : String) : List String :=
  ragColorsVocab.filter (fun c => containsSubL c.data (lowerL text.data))

def extractMaterialsR (text : String) : List String :=
  ragMaterialsVocab.filter (fun m => containsSubL m.data (lowerL text.data))

def extractStyleR (text : String) : List String :=
  ragStylesVocab.filter (fun s => containsSubL s.data (lowerL text.data))

def extractGenderR (text : String) : String :=
  let lt := lowerL text.data
  if containsSubL ("women").data lt || containsSubL ("female").data lt then
    "women"
  else if containsSubL ("men").data lt || containsSubL ("male").data lt then
    "men"
  else "unisex"

/-- A captured raw product (fields the chunking pipeline reads). -/
structure RawProduct where
  title : String := ""
  brand : String := ""
  price : String := ""
  description : String := ""
  text : String := ""

def createProductContext (p : RawProduct) : ProductContext :=
  { title := p.title
    brand := p.brand
    price := p.price
    description := p.description
    productType := extractProductType p.text
    colors := extractColorsR p.text
    materials := extractMaterialsR p.text
    style := extractStyleR p.text
    gender := extractGenderR p.text
    fullText := p.text }

/-- The human-readable attribute summary lines of the `attributes` chunk. -/
def attributeLines (ctx : ProductContext) : List String :=
  (if ctx.colors.isEmpty then [] else [("Colors: ") ++ joinSep (", ") ctx.colors]) ++
  (if ctx.materials.isEmpty then [] else [("Materials: ") ++ joinSep (", ") ctx.materials]) ++
  (if ctx.style.isEmpty then [] else [("Style: ") ++ joinSep (", ") ctx.style]) ++
  (if ctx.productType == "unknown" then [] else [("Type: ") ++ ctx.productType]) ++
  (if ctx.gender == "unisex" then [] else [("Gender: ") ++ ctx.gender]) ++
  (if ctx.price == "" then [] else [("Price: ") ++ ctx.price])

/-- Number of chunk windows of the loop
    `for (let i = 0; i < len; i += step)`. -/
def numWindows (len step : ℕ) : ℕ :=
  if step = 0 then 0 else (len + step - 1) / step

/-- The raw window starting at `k * step` (`text.substring(i, i + chunkSize)`
    with `step = chunkSize - overlap`). -/
def window (text : List Char) (chunkSize step k : ℕ) : List Char :=
  (text.drop (k * step)).take chunkSize

/-- `splitIntoChunks`: overlapping windows (20% overlap), trimmed, blank
    windows dropped. -/
def splitIntoChunks (text : String) (chunkSize : ℕ) : List String :=
  let overlap := chunkSize / 5
  let step := chunkSize - overlap
  ((List.range (numWindows text.data.length step)).map
      (fun k => window text.data chunkSize step k)).filterMap
    (fun w =>
      let t := trimL w
      if t.isEmpty then none else some (String.mk t))

/-- The source's `chunkSize` field. -/
def chunkSizeDefault : ℕ := 200

/-- `chunkProductInfo`: up to one `title_brand` chunk, up to one
    `attributes` chunk, and one or more `description` chunks; each chunk
    then receives its embedding.  The embedding engine is passed as a
    function (`generateEmbedding` delegates to the model or the fallback). -/
def chunkProductInfo (embed : String → List ℝ) (chunkSize : ℕ)
    (ctx : ProductContext) (productId : String) : List PChunk :=
  let base : List PChunk :=
    (if ctx.title ≠ "" ∨ ctx.brand ≠ "" then
      [{ productId := productId, kind := ChunkKind.title_brand,
         content := trimS (ctx.brand ++ (" ") ++ ctx.title) }]
     else []) ++
    (let attrs := attributeLines ctx
     if attrs.isEmpty then []
     else [{ productId := productId, kind := ChunkKind.attributes,
             content := joinSep (". ") attrs }]) ++
    (if chunkSize < ctx.fullText.length then
      (splitIntoChunks ctx.fullText chunkSize).mapIdx
        (fun i c => { productId := productId, kind := ChunkKind.description,
                      content := c, chunkIndex := some i })
     else if ctx.fullText ≠ "" then
      [{ productId := productId, kind := ChunkKind.description,
         content := ctx.fullText }]
     else [])
  base.map (fun c => { c with embedding := embed c.content })

/-! Similarity retrieval (`retrieveRelevantChunks`). -/

/-- A chunk annotated with its similarity to the current query
    (the `{...chunk, similarity}` spread). -/
structure ScoredChunk where
  chunk : PChunk
  similarity : ℝ

open Classical in
/-- Stable insertion step of the descending sort performed by
    `similarities.sort((a, b) => b.similarity - a.similarity)`. -/
noncomputable def insertDescBy {α : Type} (f : α → ℝ) (x : α) :
    List α → List α
  | [] => [x]
  | y :: ys => if f y < f x then x :: y :: ys else y :: insertDescBy f x ys

noncomputable def sortDescBy {α : Type} (f : α → ℝ) (l : List α) : List α :=
  l.foldl (fun acc x => insertDescBy f x acc) []

open Classical in
/-- `retrieveRelevantChunks`: score every stored chunk against the query
    embedding, sort descending, keep the chunks strictly above the
    similarity threshold (`0.1` by default), truncate to `maxChunks`. -/
noncomputable def retrieveRelevantChunks (queryEmbedding : List ℝ)
    (stored : List PChunk) (threshold : ℝ) (maxChunks : ℕ) :
    List ScoredChunk :=
  let sims := stored.map
    (fun c => ⟨c, cosineSimilarity queryEmbedding c.embedding⟩)
  ((sortDescBy ScoredChunk.similarity sims).filter
      (fun c => decide (threshold < c.similarity))).take maxChunks

/-! RAG orchestrator (`generateWithRAG`). -/

/-- Per-product aggregate over its retrieved chunks. -/
structure ProdScore where
  maxSimilarity : ℝ
  totalSimilarity : ℝ
  chunkCount : ℕ

/-- Persisted product metadata (display fields used by match building). -/
structure ProductMeta where
  productId : String := ""
  title : String := ""
  brand : String := ""
  price : String := ""
  link : String := ""
  image : String := ""

/-- A final match record. -/
structure RAGMatch where
  productId : String := ""
  title : String := ""
  brand : String := ""
  price : String := ""
  link : String := ""
  image : String := ""
  confidence : ℝ := 0
  avgConfidence : ℝ := 0
  reason : String := ""
  retrievalScore : ℝ := 0

/-- The orchestrator's result record. -/
structure RAGResult where
  matches' : List RAGMatch
  reasoning : String
  retrievedChunks : ℕ

/-- The persistent store as seen by one `generateWithRAG` call: reading all
    chunks and looking up metadata are IndexedDB requests that either
    deliver a value or reject with an error. -/
structure RAGDb where
  allChunks : Except String (List PChunk)
  metaById : String → Except String (Option ProductMeta)

/-- One step of the product-score grouping loop: insert a chunk into the
    per-product accumulator keyed by `productId`. -/
noncomputable def updateScores (m : List (String × ProdScore))
    (c : ScoredChunk) : List (String × ProdScore) :=
  if (m.find? (fun e => e.1 == c.chunk.productId)).isSome then
    m.map (fun e =>
      if e.1 == c.chunk.productId then
        (e.1, ⟨max e.2.maxSimilarity c.similarity,
               e.2.totalSimilarity + c.similarity, e.2.chunkCount + 1⟩)
      else e)
  else
    m ++ [(c.chunk.productId, ⟨max 0 c.similarity, c.similarity, 1⟩)]

open Classical in
/-- Hydrate metadata and build one candidate match per product whose best
    similarity exceeds the threshold (`fmt` models `Number.toFixed(3)`). -/
noncomputable def buildMatches (db : RAGDb) (fmt : ℝ → String)
    (threshold : ℝ) : List (String × ProdScore) →
    Except String (List RAGMatch)
  | [] => Except.ok []
  | (pid, sc) :: rest => do
    let meta ← db.metaById pid
    let tail ← buildMatches db fmt threshold rest
    match meta with
    | some m =>
      if threshold < sc.maxSimilarity then
        Except.ok
          ({ productId := m.productId, title := m.title, brand := m.brand,
             price := m.price, link := m.link, image := m.image,
             confidence := sc.maxSimilarity,
             avgConfidence := sc.totalSimilarity / (sc.chunkCount : ℝ),
             reason := ("Semantic similarity: ") ++ fmt sc.maxSimilarity ++
               (" (") ++ toString sc.chunkCount ++ (" chunks)"),
             retrievalScore := sc.maxSimilarity } :: tail)
      else Except.ok tail
    | none => Except.ok tail

/-- JS whitespace-run collapsing, `replace(/\s+/g, ' ')`. -/
def collapseSpaces : List Char → Bool → List Char
  | [], _ => []
  | c :: cs, prev =>
    if jsIsSpace c then
      if prev then collapseSpaces cs true else ' ' :: collapseSpaces cs true
    else c :: collapseSpaces cs false

/-- The normalised-title deduplication key: lowercase, whitespace collapsed,
    punctuation stripped (`[^\w\s-]` removed), trimmed, first 30 chars. -/
def normKey (title : String) : String :=
  String.mk
    ((trimL
        (((collapseSpaces (lowerL title.data) false)).filter
          (fun c => jsIsWordChar c || jsIsSpace c || c == '-'))).take 30)

open Classical in
/-- One `Map.set`-style step of the dedup pass: insert at the end when the
    key is new, replace in place when the new match has strictly higher
    confidence. -/
noncomputable def dedupInsert (m : List (String × RAGMatch)) (k : String)
    (v : RAGMatch) : List (String × RAGMatch) :=
  match m.find? (fun e => e.1 == k) with
  | none => m ++ [(k, v)]
  | some e =>
    if e.2.confidence < v.confidence then
      m.map (fun e' => if e'.1 == k then (e'.1, v) else e')
    else m

noncomputable def dedupFold (l : List RAGMatch) :
    List (String × RAGMatch) :=
  l.foldl (fun m v => dedupInsert m (normKey v.title) v) []

/-- The deduplication pass of `generateWithRAG`
    (`Array.from(deduplicatedMatches.values())`). -/
noncomputable def dedupMatches (l : List RAGMatch) : List RAGMatch :=
  (dedupFold l).map Prod.snd

/-- The body of `generateWithRAG`'s `try` block.  Grouping iterates the
    accumulator in first-insertion order (`Object.entries`; JS would move
    all-digit product ids to numeric order, which no claim depends on). -/
noncomputable def generateBody (db : RAGDb) (embed : String → List ℝ)
    (fmt : ℝ → String) (threshold : ℝ) (maxChunks : ℕ) (query : String) :
    Except String RAGResult := do
  let stored ← db.allChunks
  let relevant := retrieveRelevantChunks (embed query) stored threshold
    maxChunks
  if relevant.isEmpty then
    return ⟨[], "No semantically similar products found", 0⟩
  else
    let productScores := relevant.foldl updateScores []
    let matches' ← buildMatches db fmt threshold productScores
    let finalMatches := sortDescBy RAGMatch.confidence (dedupMatches matches')
    return ⟨finalMatches,
      ("Found ") ++ toString finalMatches.length ++
        (" products via semantic vector search"),
      relevant.length⟩

/-- `generateWithRAG`: the `try`/`catch` wrapper — any exception becomes a
    zero-match result carrying the error message. -/
noncomputable def generateWithRAG (db : RAGDb) (embed : String → List ℝ)
    (fmt : ℝ → String) (threshold : ℝ) (maxChunks : ℕ) (query : String) :
    RAGResult :=
  match generateBody db embed fmt threshold maxChunks query with
  | Except.ok r => r
  | Except.error e => ⟨[], ("RAG generation failed: ") ++ e, 0⟩

/-- Number of `description` chunks in a chunk list. -/
def countDesc (l : List PChunk) : ℕ :=
  l.countP (fun c => c.kind == ChunkKind.description)

/-- Concrete product context used to evaluate the chunking pipeline: a
    201-character full text whose tail window consists of whitespace. -/
def ctxBlankTail : ProductContext :=
  { title := "Top", brand := "", price := "", description := ""
    productType := "unknown", colors := [], materials := [], style := []
    gender := "unisex"
    fullText := String.mk (List.replicate 160 'a' ++ List.replicate 41 ' ') }

/-- Concrete product context with a 250-character non-blank full text. -/
def ctxLongText : ProductContext :=
  { title := "Top", brand := "", price := "", description := ""
    productType := "unknown", colors := [], materials := [], style := []
    gender := "unisex"
    fullText := String.mk (List.replicate 250 'a') }

end RAG

/-! The `ProductHighlighter` deterministic query/match scorer
    (`calculateMatchScore` and its helpers). -/

namespace Scorer

/-! Query analysis vocabularies. -/

def commonBrands : List String :=
  ["nike", "adidas", "apple", "samsung", "sony", "microsoft", "google",
   "amazon", "hp", "dell", "lenovo", "asus", "acer", "lg", "philips",
   "bosch", "siemens", "whirlpool", "dyson", "bose", "beats", "jbl"]

def categoriesVocab : List (String × List String) :=
  [("electronics", ["phone", "laptop", "tablet", "computer", "headphones",
      "speaker", "tv", "monitor"]),
   ("clothing", ["sneakers", "shoes", "shirt", "pants", "dress", "jacket",
      "hat", "clothing"]),
   ("home", ["furniture", "lamp", "table", "chair", "bed", "sofa",
      "kitchen"]),
   ("sports", ["fitness", "gym", "running", "basketball", "football",
      "tennis"])]

def colorsVocab : List String :=
  ["white", "black", "red", "blue", "green", "yellow", "orange", "purple",
   "pink", "brown", "gray", "grey", "silver", "gold", "beige", "navy",
   "turquoise", "lime", "maroon", "olive"]

def attributesVocab : List (String × List String) :=
  [("size", ["small", "medium", "large", "xl", "xxl", "xs", "size"]),
   ("material", ["cotton", "leather", "wool", "silk", "polyester", "denim",
      "canvas"]),
   ("style", ["casual", "formal", "sporty", "vintage", "modern", "classic"]),
   ("features", ["waterproof", "wireless", "bluetooth", "rechargeable",
      "portable", "lightweight"])]

/-! Price-constraint extraction (`extractPriceConstraints`).  The four
    regexes are modelled by hand-rolled matchers with the same
    leftmost-first, backtracking-alternation, greedy semantics, scanned
    left to right with continuation after each match (the `g` flag). -/

inductive CType
  | max
  | min
deriving DecidableEq, Repr

structure PriceConstraint where
  ctype : CType
  value : ℚ
  currency : String
deriving DecidableEq

def maxKeywords : List String := ["under", "below", "less than", "max", "maximum"]

def minKeywords : List String := ["above", "over", "more than", "min", "minimum"]

def currencyAlts : List String := ["€", "$", "£", "usd", "eur", "gbp"]

def sufAlts : List String := ["or less", "max", "maximum"]

/-- Regex alternation with continuation: return the first alternative that
    matches here and whose continuation succeeds. -/
def firstAltWith {β : Type} (alts : List (List Char)) (cs : List Char)
    (cont : List Char → Option β) : Option (List Char × β) :=
  match alts with
  | [] => none
  | k :: ks =>
    if startsWithL k cs then
      match cont (cs.drop k.length) with
      | some b => some (k, b)
      | none => firstAltWith ks cs cont
    else firstAltWith ks cs cont

/-- Greedy `\d+(?:[.,]\d+)?`: the matched characters and the rest. -/
def parseNum (cs : List Char) : Option (List Char × List Char) :=
  let ds := cs.takeWhile jsIsDigit
  if ds.isEmpty then none
  else
    match cs.drop ds.length with
    | c :: r2 =>
      if c == '.' || c == ',' then
        let fs := r2.takeWhile jsIsDigit
        if fs.isEmpty then some (ds, cs.drop ds.length)
        else some (ds ++ c :: fs, r2.drop fs.length)
      else some (ds, cs.drop ds.length)
    | [] => some (ds, [])

/-- The `\s*(€|$|£|usd|eur|gbp)?\s*(\d+(?:[.,]\d+)?)` tail of patterns 1/2:
    returns `((number, currency), rest)` with an empty currency when the
    optional group did not participate. -/
def numTail (cs : List Char) : Option ((List Char × List Char) × List Char) :=
  let cs1 := cs.dropWhile jsIsSpace
  match firstAltWith (currencyAlts.map String.data) cs1
      (fun r => parseNum (r.dropWhile jsIsSpace)) with
  | some (cur, (num, rest)) => some ((num, cur), rest)
  | none =>
    match parseNum cs1 with
    | some (num, rest) => some ((num, []), rest)
    | none => none

/-- Patterns 1 and 2 at the current position: a price keyword followed by
    the numeric tail. -/
def tryP12 (kws : List String) (cs : List Char) :
    Option ((List Char × List Char) × List Char) :=
  (firstAltWith (kws.map String.data) cs numTail).map Prod.snd

/-- Pattern 3 at the current position:
    `(€|$|£)\s*(\d+(?:[.,]\d+)?)\s*(?:or less|max|maximum)`. -/
def tryP3 (cs : List Char) : Option ((List Char × List Char) × List Char) :=
  (firstAltWith (["€", "$", "£"].map String.data) cs (fun r1 =>
    match parseNum (r1.dropWhile jsIsSpace) with
    | some (num, r2) =>
      match firstAltWith (sufAlts.map String.data) (r2.dropWhile jsIsSpace)
          (fun r3 => some r3) with
      | some (_, r3) => some (num, r3)
      | none => none
    | none => none)).map (fun p => ((p.2.1, p.1), p.2.2))

/-- Pattern 4 at the current position:
    `(\d+(?:[.,]\d+)?)\s*(€|$|£|usd|eur|gbp)\s*(?:or less|max|maximum)`. -/
def tryP4 (cs : List Char) : Option ((List Char × List Char) × List Char) :=
  match parseNum cs with
  | some (num, r1) =>
    match firstAltWith (currencyAlts.map String.data)
        (r1.dropWhile jsIsSpace) (fun r2 =>
          match firstAltWith (sufAlts.map String.data)
              (r2.dropWhile jsIsSpace) (fun r3 => some r3) with
          | some (_, r3) => some r3
          | none => none) with
    | some (cur, rest) => some ((num, cur), rest)
    | none => none
  | none => none

/-- Scan the text left to right; after each match continue right after it
    (non-overlapping `g`-flag matching).  The fuel is the remaining length
    plus one, enough since every step consumes at least one character. -/
def scanPat {α : Type} (tryM : List Char → Option (α × List Char)) :
    ℕ → List Char → List α
  | 0, _ => []
  | _ + 1, [] => []
  | f + 1, c :: cs =>
    match tryM (c :: cs) with
    | some (d, rest) => d :: scanPat tryM f rest
    | none => scanPat tryM f cs

def scanAll {α : Type} (tryM : List Char → Option (α × List Char))
    (cs : List Char) : List α :=
  scanPat tryM (cs.length + 1) cs

/-- The constraint type is decided by whole-prompt substring tests
    (`prompt.includes('under') || ... || prompt.includes('max')`), not by
    which pattern matched. -/
def hasMaxCue (prompt : List Char) : Bool :=
  containsSubL ("under").data prompt || containsSubL ("below").data prompt ||
  containsSubL ("less").data prompt || containsSubL ("max").data prompt

def cueType (prompt : List Char) : CType :=
  if hasMaxCue prompt then CType.max else CType.min

/-- Constraint built from a pattern-1/2 match: `match[1]` is the currency
    group (possibly absent), `match[2]` the number;
    `value = parseFloat(match[2] || match[1])`,
    `currency = match[1] || match[2] || '€'`. -/
def mkConstraint12 (prompt : List Char) (d : List Char × List Char) :
    Option PriceConstraint :=
  match jsParseFloatQ (if d.1.isEmpty then d.2 else d.1) with
  | some v =>
    some ⟨cueType prompt, v,
      String.mk (if d.2.isEmpty then d.1 else d.2)⟩
  | none => none

/-- Constraint built from a pattern-3 match: `match[1]` is the currency,
    `match[2]` the number. -/
def mkConstraint3 (prompt : List Char) (d : List Char × List Char) :
    Option PriceConstraint :=
  match jsParseFloatQ (if d.1.isEmpty then d.2 else d.1) with
  | some v =>
    some ⟨cueType prompt, v,
      String.mk (if d.2.isEmpty then d.1 else d.2)⟩
  | none => none

/-- Constraint built from a pattern-4 match: here `match[1]` is the number
    and `match[2]` the currency, so `parseFloat(match[2] || match[1])`
    parses the currency token and always yields `NaN`: pattern 4 never
    contributes a constraint. -/
def mkConstraint4 (prompt : List Char) (d : List Char × List Char) :
    Option PriceConstraint :=
  match jsParseFloatQ d.2 with
  | some v =>
    some ⟨cueType prompt, v, String.mk (if d.1.isEmpty then d.2 else d.1)⟩
  | none => none

/-- Pattern-1 matches `(num, cur)` pairs: the match data of
    `/(?:under|below|less than|max|maximum)\s*(...)?\s*(\d...)/gi`. -/
def constraintsP1 (prompt : List Char) : List PriceConstraint :=
  (scanAll (tryP12 maxKeywords) prompt).filterMap (mkConstraint12 prompt)

def constraintsP2 (prompt : List Char) : List PriceConstraint :=
  (scanAll (tryP12 minKeywords) prompt).filterMap (mkConstraint12 prompt)

def constraintsP3 (prompt : List Char) : List PriceConstraint :=
  (scanAll tryP3 prompt).filterMap (mkConstraint3 prompt)

def constraintsP4 (prompt : List Char) : List PriceConstraint :=
  (scanAll tryP4 prompt).filterMap (mkConstraint4 prompt)

/-- `extractPriceConstraints` on the (already lowercased) prompt. -/
def extractPriceConstraints (prompt : List Char) : List PriceConstraint :=
  constraintsP1 prompt ++ constraintsP2 prompt ++ constraintsP3 prompt ++
  constraintsP4 prompt

/-! The remaining extractors of `analyzeQuery`. -/

def extractBrands (prompt : List Char) : List String :=
  commonBrands.filter (fun b => containsSubL b.data prompt)

def extractCategories (prompt : List Char) : List String :=
  (categoriesVocab.filter
    (fun cw => cw.2.any (fun w => containsSubL w.data prompt))).map Prod.fst

/-- `extractColors`: fixed vocabulary, word-boundary matched. -/
def extractColors (prompt : List Char) : List String :=
  colorsVocab.filter (fun c => hasWholeWordL c.data prompt)

structure AttrPair where
  atype : String
  aval : String
deriving DecidableEq

def extractAttributes (prompt : List Char) : List AttrPair :=
  attributesVocab.flatMap
    (fun tw => (tw.2.filter (fun w => containsSubL w.data prompt)).map
      (fun w => ⟨tw.1, w⟩))

/-! `cleanQuery`: sequential global regex replacements. -/

def priceWords : List String :=
  ["under", "below", "less than", "max", "maximum", "above", "over",
   "more than", "min", "minimum", "cost", "price", "budget", "cheap",
   "expensive"]

def filterWords : List String :=
  ["that", "in", "with", "for", "or", "and", "the", "a", "an"]

/-- Remove every `\b`-delimited occurrence of `w`, scanning left to right
    (word boundaries are relative to the original string).  `prevW` is the
    word-character status of the character before the current position. -/
def removeWWAux (w : List Char) : ℕ → Bool → List Char → List Char
  | 0, _, cs => cs
  | _ + 1, _, [] => []
  | f + 1, prevW, c :: cs =>
    if !prevW && wholeHereB w (c :: cs) then
      removeWWAux w f (jsIsWordChar (w.getLastD ' ')) (cs.drop (w.length - 1))
    else c :: removeWWAux w f (jsIsWordChar c) cs

def removeWholeWord (w cs : List Char) : List Char :=
  if w.isEmpty then cs else removeWWAux w (cs.length + 1) false cs

/-- Matcher for `[€$£]\s*\d+(?:[.,]\d+)?` (used as a removal). -/
def tryCurNum (cs : List Char) : Option (Unit × List Char) :=
  match cs with
  | c :: r1 =>
    if c == '€' || c == '$' || c == '£' then
      match parseNum (r1.dropWhile jsIsSpace) with
      | some (_, rest) => some ((), rest)
      | none => none
    else none
  | [] => none

/-- Matcher for `\d+(?:[.,]\d+)?\s*[€$£]` (used as a removal). -/
def tryNumCur (cs : List Char) : Option (Unit × List Char) :=
  match parseNum cs with
  | some (_, r1) =>
    match r1.dropWhile jsIsSpace with
    | c :: rest =>
      if c == '€' || c == '$' || c == '£' then some ((), rest) else none
    | [] => none
  | none => none

/-- Remove every match of a pattern, scanning left to right. -/
def removeScanAux (tryM : List Char → Option (Unit × List Char)) :
    ℕ → List Char → List Char
  | 0, cs => cs
  | _ + 1, [] => []
  | f + 1, c :: cs =>
    match tryM (c :: cs) with
    | some (_, rest) => removeScanAux tryM f rest
    | none => c :: removeScanAux tryM f cs

def removeScan (tryM : List Char → Option (Unit × List Char))
    (cs : List Char) : List Char :=
  removeScanAux tryM (cs.length + 1) cs

/-- `cleanQuery` (the price-constraint argument is unused by the source
    body as well: price words are removed unconditionally). -/
def cleanQuery (prompt : List Char) (_pcs : List PriceConstraint)
    (brands : List String) (colors : List String) (attrs : List AttrPair) :
    List Char :=
  let s1 := priceWords.foldl (fun s w => removeWholeWord w.data s) prompt
  let s2 := removeScan tryCurNum s1
  let s3 := removeScan tryNumCur s2
  let s4 := brands.foldl (fun s b => removeWholeWord b.data s) s3
  let s5 := colors.foldl (fun s c => removeWholeWord c.data s) s4
  let s6 := attrs.foldl (fun s a => removeWholeWord a.aval.data s) s5
  let s7 := filterWords.foldl (fun s w => removeWholeWord w.data s) s6
  trimL s7

/-- `extractMeaningfulKeywords`: split on whitespace, keep words longer
    than two characters that are not pure numbers. -/
def extractMeaningfulKeywords (cleaned : List Char) : List (List Char) :=
  (runsBy (fun c => !jsIsSpace c) cleaned).filter
    (fun w => 2 < w.length && !(w.all jsIsDigit))

/-- The per-query `QueryAnalysis` record (the `requiredCriteria` list is
    computed by the source but used only for logging and is omitted). -/
structure QueryAnalysis where
  coreQuery : List Char
  keywords : List (List Char)
  priceConstraints : List PriceConstraint
  brands : List String
  categories : List String
  colors : List String
  attributes : List AttrPair
  hasPrice : Bool
  hasBrand : Bool
  hasColor : Bool
  hasAttributes : Bool

def analyzeQuery (userPrompt : String) : QueryAnalysis :=
  let prompt := lowerL userPrompt.data
  let pcs := extractPriceConstraints prompt
  let brands := extractBrands prompt
  let cats := extractCategories prompt
  let colors := extractColors prompt
  let attrs := extractAttributes prompt
  let cleaned := cleanQuery prompt pcs brands colors attrs
  let keywords := extractMeaningfulKeywords cleaned
  ⟨cleaned, keywords, pcs, brands, cats, colors, attrs,
   !pcs.isEmpty, !brands.isEmpty, !colors.isEmpty, !attrs.isEmpty⟩

/-! Sub-scores. -/

def calculateKeywordScore (productLower : List Char)
    (keywords : List (List Char)) : ℚ :=
  if keywords.isEmpty then 0
  else (keywords.countP (fun k => containsSubL k productLower) : ℚ) /
    (keywords.length : ℚ)

def calculateExactScore (productLower : List Char)
    (keywords : List (List Char)) : ℚ :=
  if keywords.isEmpty then 0
  else (keywords.countP (fun k => hasWholeWordL k productLower) : ℚ) /
    (keywords.length : ℚ)

/-- Words (≥ 3 chars) of a text for the Jaccard-style overlap. -/
def wordsOf (t : List Char) : List (List Char) :=
  (runsBy jsIsWordChar (lowerL t)).filter (fun w => 2 < w.length)

/-- `calculateSemanticSimilarity`: shared-word count over distinct-word
    count (note the numerator counts duplicates, so the ratio can exceed
    one). -/
def calculateSemanticSimilarity (t1 t2 : List Char) : ℚ :=
  let w1 := wordsOf t1
  let w2 := wordsOf t2
  let common := w1.filter (fun w => w2.contains w)
  let total := ((w1 ++ w2).dedup).length
  (common.length : ℚ) / max (total : ℚ) 1

/-- Pattern `(€|$|£)\s*(\d+(?:[.,]\d+)?)` of `extractPricesFromText`:
    `(match[1], match[2]) = (currency, number)`. -/
def tryPriceA (cs : List Char) :
    Option ((List Char × List Char) × List Char) :=
  match cs with
  | c :: r1 =>
    if c == '€' || c == '$' || c == '£' then
      match parseNum (r1.dropWhile jsIsSpace) with
      | some (num, rest) => some (([c], num), rest)
      | none => none
    else none
  | [] => none

/-- Pattern `(\d+(?:[.,]\d+)?)\s*(€|$|£)` of `extractPricesFromText`:
    `(match[1], match[2]) = (number, currency)`. -/
def tryPriceB (cs : List Char) :
    Option ((List Char × List Char) × List Char) :=
  match parseNum cs with
  | some (num, r1) =>
    match r1.dropWhile jsIsSpace with
    | c :: rest =>
      if c == '€' || c == '$' || c == '£' then some ((num, [c]), rest)
      else none
    | [] => none
  | none => none

/-- `extractPricesFromText`: both patterns scanned, each match parsed via
    `parseFloat((match[2] || match[1]).replace(',', '.'))` — for the
    second pattern `match[2]` is the currency symbol, so those matches all
    parse to `NaN` and are dropped. -/
def extractPricesFromText (text : List Char) : List ℚ :=
  (scanAll tryPriceA text ++ scanAll tryPriceB text).filterMap
    (fun m => jsParseFloatQ (replaceFirstComma
      (if m.2.isEmpty then m.1 else m.2)))

def checkPriceConstraint (price : ℚ) (c : PriceConstraint) : Bool :=
  match c.ctype with
  | CType.max => price ≤ c.value
  | CType.min => c.value ≤ price

def calculatePriceScore (productText : List Char)
    (pcs : List PriceConstraint) : ℚ :=
  if pcs.isEmpty then 1
  else
    let prices := extractPricesFromText productText
    if prices.isEmpty then 1 / 2
    else if prices.any (fun p => pcs.all (checkPriceConstraint p)) then 1
    else 0

def calculateBrandScore (productLower : List Char) (brands : List String) :
    ℚ :=
  if brands.isEmpty then 1
  else (brands.countP (fun b => containsSubL b.data productLower) : ℚ) /
    (brands.length : ℚ)

/-- `calculateCategoryScore` returns `1` on both branches of the source. -/
def calculateCategoryScore (_productLower : List Char)
    (cats : List String) : ℚ :=
  if cats.isEmpty then 1 else 1

def calculateColorScore (productLower : List Char) (colors : List String) :
    ℚ :=
  if colors.isEmpty then 1
  else (colors.countP (fun c => hasWholeWordL c.data productLower) : ℚ) /
    (colors.length : ℚ)

def calculateAttributeScore (productLower : List Char)
    (attrs : List AttrPair) : ℚ :=
  if attrs.isEmpty then 1
  else (attrs.countP (fun a => hasWholeWordL a.aval.data productLower) : ℚ) /
    (attrs.length : ℚ)

/-! Adaptive weights and combination. -/

structure Weights where
  keyword : ℚ
  exact : ℚ
  semantic : ℚ
  price : ℚ
  brand : ℚ
  category : ℚ
  color : ℚ
  attributes : ℚ

/-- `getAdaptiveWeights`: the base table with each specified facet raised
    (and the keyword weight lowered to `0.2` by any of the four
    adjustments). -/
def getAdaptiveWeights (qa : QueryAnalysis) : Weights :=
  { keyword :=
      if qa.hasPrice || qa.hasBrand || qa.hasColor || qa.hasAttributes
      then 0.2 else 0.25
    exact := 0.2
    semantic := 0.15
    price := if qa.hasPrice then 0.15 else 0.05
    brand := if qa.hasBrand then 0.15 else 0.05
    category := 0.05
    color := if qa.hasColor then 0.2 else 0.15
    attributes := if qa.hasAttributes then 0.15 else 0.1 }

structure Scores where
  keyword : ℚ
  exact : ℚ
  semantic : ℚ
  price : ℚ
  brand : ℚ
  category : ℚ
  color : ℚ
  attributes : ℚ

def combineScores (s : Scores) (w : Weights) : ℚ :=
  s.keyword * w.keyword + s.exact * w.exact + s.semantic * w.semantic +
  s.price * w.price + s.brand * w.brand + s.category * w.category +
  s.color * w.color + s.attributes * w.attributes

def calculateHighPerformingBoost (keywords : List (List Char))
    (hpk : List String) : ℚ :=
  (keywords.countP (fun k => hpk.contains (String.mk k)) : ℚ) * 0.05

/-! Hard-requirement gating (`checkCoreRequirements`). -/

/-- The keyword-variant test of requirement 1: substring match of the
    keyword, its naive plural, its naive singular, or the special
    sneaker/sneakers pair. -/
def keywordVariantHit (productLower : List Char) (k : List Char) : Bool :=
  containsSubL k productLower ||
  containsSubL (k ++ [ 's' ]) productLower ||
  containsSubL k.dropLast productLower ||
  (k == ("sneakers").data && containsSubL ("sneaker").data productLower) ||
  (k == ("sneaker").data && containsSubL ("sneakers").data productLower)

def checkCoreRequirements (productText : List Char) (qa : QueryAnalysis) :
    Bool :=
  let productLower := lowerL productText
  (if qa.keywords.isEmpty then true
   else
     let km := qa.keywords.countP (keywordVariantHit productLower)
     decide (max 1 ((qa.keywords.length + 1) / 2) ≤ km)) &&
  (qa.colors.isEmpty ||
    qa.colors.any (fun c => hasWholeWordL c.data productLower)) &&
  (qa.brands.isEmpty ||
    qa.brands.any (fun b => hasWholeWordL b.data productLower)) &&
  (if qa.priceConstraints.isEmpty then true
   else
     let prices := extractPricesFromText productText
     if prices.isEmpty then true
     else prices.any (fun p => qa.priceConstraints.all (checkPriceConstraint p)))

/-! `calculateMatchScore`.  The externally supplied allowlist of
    high-performing keywords is a parameter; the `try`/`catch` wrapper has
    no effect in the model, whose body is total. -/

def calculateMatchScore (productText userPrompt : String)
    (hpk : List String) : ℚ :=
  let qa := analyzeQuery userPrompt
  let productLower := lowerL productText.data
  if qa.keywords.isEmpty && qa.colors.isEmpty && qa.brands.isEmpty &&
      qa.priceConstraints.isEmpty then
    let promptWords := (runsBy (fun c => !jsIsSpace c)
      (lowerL userPrompt.data)).filter (fun w => 2 < w.length)
    let m := promptWords.countP (fun w => containsSubL w productLower)
    let simpleScore : ℚ := (m : ℚ) / max (promptWords.length : ℚ) 1
    if 1 / 2 < simpleScore then simpleScore else 0
  else if !checkCoreRequirements productText.data qa then 0
  else
    let scores : Scores :=
      { keyword := calculateKeywordScore productLower qa.keywords
        exact := calculateExactScore productLower qa.keywords
        semantic := calculateSemanticSimilarity productText.data qa.coreQuery
        price := calculatePriceScore productText.data qa.priceConstraints
        brand := calculateBrandScore productLower qa.brands
        category := calculateCategoryScore productLower qa.categories
        color := calculateColorScore productLower qa.colors
        attributes := calculateAttributeScore productLower qa.attributes }
    let weights := getAdaptiveWeights qa
    min (combineScores scores weights +
      calculateHighPerformingBoost qa.keywords hpk) 1

end Scorer

end PH

/-! Theorems.  Shared helper lemmas come first, then one theorem per claim
    (with its witness or counterexample where required). -/

namespace PH

namespace RAG

lemma sumsq_range_nonneg (v : List ℝ) (n : ℕ) :
    0 ≤ ∑ i in Finset.range n, v.getD i 0 * v.getD i 0 :=
  Finset.sum_nonneg fun _ _ => mul_self_nonneg _

lemma dot_le_sqrt_mul_sqrt (v1 v2 : List ℝ) (n : ℕ) :
    ∑ i in Finset.range n, v1.getD i 0 * v2.getD i 0 ≤
      Real.sqrt (∑ i in Finset.range n, v1.getD i 0 * v1.getD i 0) *
        Real.sqrt (∑ i in Finset.range n, v2.getD i 0 * v2.getD i 0) := by
  have h := Real.sum_mul_le_sqrt_mul_sqrt (Finset.range n)
    (fun i => v1.getD i 0) (fun i => v2.getD i 0)
  simpa [pow_two] using h

lemma cosineSimilarity_le_one (v1 v2 : List ℝ) :
    cosineSimilarity v1 v2 ≤ 1 := by
  simp only [cosineSimilarity]
  split_ifs with h
  · norm_num
  · push_neg at h
    have h1 : 0 < Real.sqrt (∑ i in Finset.range (min v1.length v2.length),
        v1.getD i 0 * v1.getD i 0) :=
      (Real.sqrt_nonneg _).lt_of_ne' h.1
    have h2 : 0 < Real.sqrt (∑ i in Finset.range (min v1.length v2.length),
        v2.getD i 0 * v2.getD i 0) :=
      (Real.sqrt_nonneg _).lt_of_ne' h.2
    rw [div_le_one (mul_pos h1 h2)]
    exact dot_le_sqrt_mul_sqrt v1 v2 _

lemma cosineSimilarity_self (v : List ℝ) (h : ∃ x ∈ v, x ≠ 0) :
    cosineSimilarity v v = 1 := by
  obtain ⟨x, hx, hx0⟩ := h
  obtain ⟨i, hi, hxi⟩ := List.mem_iff_getElem.mp hx
  have hA : 0 < ∑ j in Finset.range v.length, v.getD j 0 * v.getD j 0 := by
    apply Finset.sum_pos' (fun j _ => mul_self_nonneg _)
    refine ⟨i, Finset.mem_range.mpr hi, ?_⟩
    rw [List.getD_eq_getElem _ _ hi, hxi]
    exact mul_self_pos.mpr hx0
  simp only [cosineSimilarity, min_self]
  rw [if_neg, Real.mul_self_sqrt hA.le, div_self hA.ne']
  rw [not_or]
  constructor <;>
    exact fun hz => absurd (Real.sqrt_eq_zero'.mp hz) (not_le.mpr hA)

end RAG

end PH

namespace PH

namespace RAG

lemma mem_insertDescBy {α : Type} (f : α → ℝ) (x y : α) (l : List α) :
    y ∈ insertDescBy f x l ↔ y = x ∨ y ∈ l := by
  induction l with
  | nil => simp [insertDescBy]
  | cons z zs ih =>
    simp only [insertDescBy]
    split_ifs with h
    · simp [List.mem_cons]
    · simp [List.mem_cons, ih]
      tauto

lemma sorted_insertDescBy {α : Type} (f : α → ℝ) (x : α) (l : List α)
    (h : l.Sorted (fun a b => f b ≤ f a)) :
    (insertDescBy f x l).Sorted (fun a b => f b ≤ f a) := by
  induction l with
  | nil => simp [insertDescBy]
  | cons z zs ih =>
    rw [List.sorted_cons] at h
    simp only [insertDescBy]
    split_ifs with hlt
    · rw [List.sorted_cons]
      refine ⟨?_, List.sorted_cons.mpr h⟩
      intro b hb
      rcases List.mem_cons.mp hb with hb | hb
      · exact hb ▸ le_of_lt hlt
      · exact le_trans (h.1 b hb) (le_of_lt hlt)
    · rw [List.sorted_cons]
      refine ⟨?_, ih h.2⟩
      intro b hb
      rcases (mem_insertDescBy f x b zs).mp hb with hb | hb
      · exact hb ▸ not_lt.mp hlt
      · exact h.1 b hb

lemma sorted_foldl_insertDescBy {α : Type} (f : α → ℝ) (l acc : List α)
    (hacc : acc.Sorted (fun a b => f b ≤ f a)) :
    (l.foldl (fun a x => insertDescBy f x a) acc).Sorted
      (fun a b => f b ≤ f a) := by
  induction l generalizing acc with
  | nil => simpa using hacc
  | cons z zs ih => exact ih _ (sorted_insertDescBy f z acc hacc)

lemma sorted_sortDescBy {α : Type} (f : α → ℝ) (l : List α) :
    (sortDescBy f l).Sorted (fun a b => f b ≤ f a) :=
  sorted_foldl_insertDescBy f l [] (by simp)

lemma mem_foldl_insertDescBy {α : Type} (f : α → ℝ) (l acc : List α) (y : α)
    (hy : y ∈ l.foldl (fun a x => insertDescBy f x a) acc) :
    y ∈ acc ∨ y ∈ l := by
  induction l generalizing acc with
  | nil => exact Or.inl (by simpa using hy)
  | cons z zs ih =>
    rcases ih _ hy with h | h
    · rcases (mem_insertDescBy f z y acc).mp h with h | h
      · exact Or.inr (h ▸ List.mem_cons_self z zs)
      · exact Or.inl h
    · exact Or.inr (List.mem_cons_of_mem z h)

lemma mem_of_mem_sortDescBy {α : Type} (f : α → ℝ) (l : List α) (y : α)
    (hy : y ∈ sortDescBy f l) : y ∈ l := by
  rcases mem_foldl_insertDescBy f l [] y hy with h | h
  · simp at h
  · exact h

/-- Claim C3: the retrieved chunk list contains only chunks whose
    similarity to the query embedding is at least the threshold (the code
    filters with a strict inequality), is sorted in descending order of
    similarity, and has at most `maxChunks` entries. -/
theorem C3_retrieve_relevant_chunks (qe : List ℝ) (stored : List PChunk)
    (threshold : ℝ) (maxChunks : ℕ) :
    (∀ c ∈ retrieveRelevantChunks qe stored threshold maxChunks,
        threshold ≤ c.similarity ∧
        c.similarity = cosineSimilarity qe c.chunk.embedding) ∧
    (retrieveRelevantChunks qe stored threshold maxChunks).Sorted
      (fun a b => b.similarity ≤ a.similarity) ∧
    (retrieveRelevantChunks qe stored threshold maxChunks).length ≤
      maxChunks := by
  refine ⟨?_, ?_, ?_⟩
  · intro c hc
    have hc1 := List.mem_of_mem_take hc
    have hc2 := List.mem_filter.mp hc1
    refine ⟨le_of_lt (of_decide_eq_true hc2.2), ?_⟩
    have hc3 := mem_of_mem_sortDescBy _ _ _ hc2.1
    obtain ⟨a, _, rfl⟩ := List.mem_map.mp hc3
    rfl
  · exact ((sorted_sortDescBy ScoredChunk.similarity _).filter _).sublist
      (List.take_sublist _ _)
  · exact List.length_take_le _ _

/-- Witness for C3: the theorem applied to a one-chunk store. -/
theorem C3_retrieve_relevant_chunks_witness :
    (0 : ℝ) ≤
      (⟨⟨"p", ChunkKind.title_brand, "t", none, [1]⟩, 1⟩ :
        ScoredChunk).similarity ∧
    (retrieveRelevantChunks [1]
        [⟨"p", ChunkKind.title_brand, "t", none, [1]⟩] 0 5).length ≤ 5 := by
  have hone : cosineSimilarity [(1 : ℝ)] [(1 : ℝ)] = 1 :=
    cosineSimilarity_self _ ⟨1, by simp, one_ne_zero⟩
  have hmem : (⟨⟨"p", ChunkKind.title_brand, "t", none, [1]⟩, 1⟩ :
      ScoredChunk) ∈ retrieveRelevantChunks [1]
        [⟨"p", ChunkKind.title_brand, "t", none, [1]⟩] 0 5 := by
    simp only [retrieveRelevantChunks, List.map_cons, List.map_nil,
      sortDescBy, List.foldl, insertDescBy, hone]
    rw [List.filter_cons, List.filter_nil]
    rw [if_pos (by simp only [decide_eq_true_eq]; norm_num)]
    simp [List.take]
  exact ⟨((C3_retrieve_relevant_chunks [1] _ 0 5).1 _ hmem).1,
    (C3_retrieve_relevant_chunks [1] _ 0 5).2.2⟩

end RAG

end PH

namespace PH

namespace RAG

/-- Claim C2: `generateWithRAG` never propagates an exception — it is a
    total function of its inputs — and any failure of its body is converted
    into a result with no matches, a reasoning string containing the error
    message, and a retrieved-chunk count of zero. -/
theorem C2_generate_with_rag_error_handling (db : RAGDb)
    (embed : String → List ℝ) (fmt : ℝ → String) (threshold : ℝ)
    (maxChunks : ℕ) (query : String) (e : String)
    (h : generateBody db embed fmt threshold maxChunks query =
      Except.error e) :
    generateWithRAG db embed fmt threshold maxChunks query =
      ⟨[], ("RAG generation failed: ") ++ e, 0⟩ ∧
    ∃ pre suf, (generateWithRAG db embed fmt threshold maxChunks
      query).reasoning = pre ++ e ++ suf := by
  have hg : generateWithRAG db embed fmt threshold maxChunks query =
      ⟨[], ("RAG generation failed: ") ++ e, 0⟩ := by
    unfold generateWithRAG
    rw [h]
  refine ⟨hg, "RAG generation failed: ", "", ?_⟩
  rw [hg]
  simp

/-- Witness for C2: a store whose chunk read rejects. -/
theorem C2_generate_with_rag_error_handling_witness :
    generateWithRAG ⟨Except.error ("db down"), fun _ => Except.ok none⟩
      (fun _ => []) (fun _ => "") (1 / 10) 100 ("q") =
      ⟨[], ("RAG generation failed: ") ++ ("db down"), 0⟩ :=
  (C2_generate_with_rag_error_handling
    ⟨Except.error ("db down"), fun _ => Except.ok none⟩ (fun _ => [])
    (fun _ => "") (1 / 10) 100 ("q") ("db down") (by rfl)).1

end RAG

end PH

namespace PH

namespace RAG

/-- Invariant of the dedup accumulator: keys are pairwise distinct and each
    entry is keyed by the normalised title of its own match. -/
def KeyedOk (m : List (String × RAGMatch)) : Prop :=
  (m.map Prod.fst).Nodup ∧ ∀ e ∈ m, e.1 = normKey e.2.title

lemma keyedOk_dedupInsert (m : List (String × RAGMatch)) (v : RAGMatch)
    (h : KeyedOk m) : KeyedOk (dedupInsert m (normKey v.title) v) := by
  unfold dedupInsert
  cases hf : m.find? (fun e => e.1 == normKey v.title) with
  | none =>
    have hnotin : ∀ e ∈ m, e.1 ≠ normKey v.title := by
      intro e he
      have := List.find?_eq_none.mp hf e he
      simpa using this
    constructor
    · rw [List.map_append, List.nodup_append]
      refine ⟨h.1, by simp, ?_⟩
      intro a ha
      obtain ⟨e, he, rfl⟩ := List.mem_map.mp ha
      simpa using hnotin e he
    · intro e he
      rcases List.mem_append.mp he with he | he
      · exact h.2 e he
      · simp only [List.mem_singleton] at he
        subst he
        rfl
  | some ex =>
    dsimp only
    split_ifs with hconf
    · constructor
      · have hmap : (m.map (fun e' =>
            if e'.1 == normKey v.title then (e'.1, v) else e')).map
              Prod.fst = m.map Prod.fst := by
          rw [List.map_map]
          refine List.map_congr_left fun e he => ?_
          simp only [Function.comp]
          split <;> rfl
        rw [hmap]
        exact h.1
      · intro e he
        obtain ⟨e', he', heq⟩ := List.mem_map.mp he
        by_cases hk : e'.1 == normKey v.title
        · rw [if_pos hk] at heq
          subst heq
          simpa using (eq_of_beq hk)
        · rw [if_neg hk] at heq
          subst heq
          exact h.2 e' he'
    · exact h

lemma keyedOk_dedupFoldAux (l : List RAGMatch)
    (m : List (String × RAGMatch)) (h : KeyedOk m) :
    KeyedOk (l.foldl (fun m v => dedupInsert m (normKey v.title) v) m) := by
  induction l generalizing m with
  | nil => exact h
  | cons v vs ih => exact ih _ (keyedOk_dedupInsert m v h)

lemma keyedOk_dedupFold (l : List RAGMatch) : KeyedOk (dedupFold l) :=
  keyedOk_dedupFoldAux l [] ⟨List.nodup_nil, by simp⟩

lemma dedupInsert_fresh (m : List (String × RAGMatch)) (k : String)
    (v : RAGMatch) (h : ∀ e ∈ m, e.1 ≠ k) :
    dedupInsert m k v = m ++ [(k, v)] := by
  unfold dedupInsert
  rw [List.find?_eq_none.mpr (fun e he => by simpa using h e he)]

lemma foldl_dedupInsert_of_fresh (m acc : List (String × RAGMatch))
    (hkeys : ((acc ++ m).map Prod.fst).Nodup)
    (hm : ∀ e ∈ m, e.1 = normKey e.2.title) :
    (m.map Prod.snd).foldl
      (fun a v => dedupInsert a (normKey v.title) v) acc = acc ++ m := by
  induction m generalizing acc with
  | nil => simp
  | cons e rest ih =>
    simp only [List.map_cons, List.foldl_cons]
    have hk : normKey e.2.title = e.1 :=
      (hm e (List.mem_cons_self e rest)).symm
    have hfresh : ∀ e' ∈ acc, e'.1 ≠ e.1 := by
      intro e' he' heq
      rw [List.map_append, List.nodup_append] at hkeys
      refine hkeys.2.2 (List.mem_map_of_mem Prod.fst he') ?_
      rw [heq]
      exact List.mem_map_of_mem Prod.fst (List.mem_cons_self e rest)
    rw [hk, dedupInsert_fresh acc e.1 e.2 hfresh]
    have hpair : acc ++ [(e.1, e.2)] = acc ++ [e] := by simp
    rw [hpair, ih (acc ++ [e]) (by simpa using hkeys)
      (fun e' he' => hm e' (List.mem_cons_of_mem e he'))]
    simp

/-- Claim C9: the normalised-title deduplication of the RAG orchestrator is
    idempotent — applied to its own output it returns the same list of
    matches (in particular the same set). -/
theorem C9_dedup_idempotent (l : List RAGMatch) :
    dedupMatches (dedupMatches l) = dedupMatches l := by
  have hK := keyedOk_dedupFold l
  show (dedupFold ((dedupFold l).map Prod.snd)).map Prod.snd = _
  rw [show dedupFold ((dedupFold l).map Prod.snd) = [] ++ dedupFold l from
    foldl_dedupInsert_of_fresh (dedupFold l) [] (by simpa using hK.1) hK.2]
  simp [dedupMatches]

end RAG

end PH

namespace PH

namespace RAG

lemma sumSq_cons (x : ℝ) (l : List ℝ) : sumSq (x :: l) = x * x + sumSq l := by
  simp [sumSq]

lemma sumSq_nonneg (l : List ℝ) : 0 ≤ sumSq l := by
  induction l with
  | nil => simp [sumSq]
  | cons x xs ih =>
    rw [sumSq_cons]
    have := mul_self_nonneg x
    linarith

lemma sumSq_pos_of_mem (l : List ℝ) (x : ℝ) (hx : x ∈ l) (hx0 : x ≠ 0) :
    0 < sumSq l := by
  induction l with
  | nil => cases hx
  | cons y ys ih =>
    rw [sumSq_cons]
    rcases List.mem_cons.mp hx with rfl | h
    · have := mul_self_pos.mpr hx0
      have := sumSq_nonneg ys
      linarith
    · have := ih h
      have := mul_self_nonneg y
      linarith

lemma sumSq_map_div (l : List ℝ) (c : ℝ) (_hc : c ≠ 0) :
    sumSq (l.map (fun x => x / c)) = sumSq l / (c * c) := by
  induction l with
  | nil => simp [sumSq]
  | cons x xs ih =>
    rw [List.map_cons, sumSq_cons, sumSq_cons, ih, div_mul_div_comm,
      div_add_div_same]

lemma sumSq_eq_zero_of_all_zero (l : List ℝ) (h : ∀ x ∈ l, x = 0) :
    sumSq l = 0 := by
  induction l with
  | nil => simp [sumSq]
  | cons x xs ih =>
    rw [sumSq_cons, h x (List.mem_cons_self x xs),
      ih fun y hy => h y (List.mem_cons_of_mem x hy)]
    ring

/-- Claim C4: when the raw fallback vector has a non-zero feature the
    returned embedding has Euclidean norm exactly 1 (for any non-empty
    input text); when every raw feature is zero, normalisation is a no-op
    and the zero vector is returned. -/
theorem C4_fallback_embedding_norm (text : String) :
    ((text ≠ "") → (∃ q ∈ rawFallbackEmbedding text, q ≠ 0) →
      l2norm (generateFallbackEmbedding text) = 1) ∧
    ((∀ q ∈ rawFallbackEmbedding text, q = 0) →
      generateFallbackEmbedding text = toRealList (rawFallbackEmbedding text) ∧
      ∀ x ∈ generateFallbackEmbedding text, x = 0) := by
  constructor
  · rintro _ ⟨q, hq, hq0⟩
    have hmem : (q : ℝ) ∈ toRealList (rawFallbackEmbedding text) := by
      unfold toRealList
      exact List.mem_map_of_mem Rat.cast hq
    have hq0' : (q : ℝ) ≠ 0 := by exact_mod_cast hq0
    have hpos : 0 < sumSq (toRealList (rawFallbackEmbedding text)) :=
      sumSq_pos_of_mem _ _ hmem hq0'
    have hnorm : 0 < l2norm (toRealList (rawFallbackEmbedding text)) :=
      Real.sqrt_pos.mpr hpos
    show l2norm
      (if 0 < l2norm (toRealList (rawFallbackEmbedding text))
       then (toRealList (rawFallbackEmbedding text)).map
         (fun x => x / l2norm (toRealList (rawFallbackEmbedding text)))
       else toRealList (rawFallbackEmbedding text)) = 1
    rw [if_pos hnorm]
    show Real.sqrt (sumSq ((toRealList (rawFallbackEmbedding text)).map
      (fun x => x / l2norm (toRealList (rawFallbackEmbedding text))))) = 1
    rw [sumSq_map_div _ _ (ne_of_gt hnorm)]
    rw [show l2norm (toRealList (rawFallbackEmbedding text)) *
        l2norm (toRealList (rawFallbackEmbedding text)) =
        sumSq (toRealList (rawFallbackEmbedding text)) from
      Real.mul_self_sqrt (sumSq_nonneg _)]
    rw [div_self hpos.ne']
    exact Real.sqrt_one
  · intro h
    have hz : ∀ x ∈ toRealList (rawFallbackEmbedding text), x = 0 := by
      intro x hx
      unfold toRealList at hx
      obtain ⟨q, hq, rfl⟩ := List.mem_map.mp hx
      exact_mod_cast h q hq
    have hnorm : l2norm (toRealList (rawFallbackEmbedding text)) = 0 := by
      unfold l2norm
      rw [sumSq_eq_zero_of_all_zero _ hz, Real.sqrt_zero]
    have hres : generateFallbackEmbedding text =
        toRealList (rawFallbackEmbedding text) := by
      show (if 0 < l2norm (toRealList (rawFallbackEmbedding text))
        then (toRealList (rawFallbackEmbedding text)).map
          (fun x => x / l2norm (toRealList (rawFallbackEmbedding text)))
        else toRealList (rawFallbackEmbedding text)) = _
      rw [if_neg (by rw [hnorm]; exact lt_irrefl 0)]
    exact ⟨hres, fun x hx => hz x (hres ▸ hx)⟩

/-- Witness for C4 at the text "red", whose colour-category block is
    non-zero. -/
theorem C4_fallback_embedding_norm_witness :
    (("red" : String) ≠ "" ∧ ∃ q ∈ rawFallbackEmbedding ("red"), q ≠ 0) ∧
    l2norm (generateFallbackEmbedding ("red")) = 1 := by
  have hc : countMatches colorKws (lowerL ("red").data) = 1 := by decide
  have hex : ∃ q ∈ rawFallbackEmbedding ("red"), q ≠ 0 := by
    refine ⟨(7 : ℚ) / 2 * (countMatches colorKws
      (lowerL ("red").data) : ℚ) * (1 - ((0 : ℕ) : ℚ) / 10), ?_, ?_⟩
    · show _ ∈ rawFallbackEmbedding ("red")
      simp only [rawFallbackEmbedding, List.mem_append]
      refine Or.inl (Or.inl (Or.inl (Or.inl (Or.inl (Or.inl
        (Or.inr ?_))))))
      unfold catBlock
      exact List.mem_map.mpr ⟨0, by decide, rfl⟩
    · rw [hc]
      norm_num
  exact ⟨⟨by decide, hex⟩,
    (C4_fallback_embedding_norm ("red")).1 (by decide) hex⟩

end RAG

end PH

namespace PH

namespace RAG

lemma catBlock_nonneg (ct : List Char) (kws : List String) (w : ℚ)
    (hw : 0 ≤ w) : ∀ q ∈ catBlock ct kws w, 0 ≤ q := by
  intro q hq
  unfold catBlock at hq
  have hq' : ∃ i ∈ List.range 10,
      w * (countMatches kws ct : ℚ) * (1 - (i : ℚ) / 10) = q :=
    List.mem_map.mp hq
  obtain ⟨i, hi, rfl⟩ := hq'
  have hi' : (i : ℚ) ≤ 9 := by
    exact_mod_cast Nat.lt_succ_iff.mp (List.mem_range.mp hi)
  have h10 : 0 ≤ 1 - (i : ℚ) / 10 := by linarith
  exact mul_nonneg (mul_nonneg hw (Nat.cast_nonneg _)) h10

lemma wordSlots_nonneg (ct : List Char) : ∀ q ∈ wordSlots ct, 0 ≤ q := by
  intro q hq
  simp only [wordSlots] at hq
  have hq' : ∃ h ∈ List.range 50,
      (((runsBy jsIsWordChar ct).filter (fun w => 2 < w.length)).countP
        (fun w => hashWord w % 50 == h) : ℚ) * (1 / 2) = q :=
    List.mem_map.mp hq
  obtain ⟨h, _, rfl⟩ := hq'
  positivity

lemma rawFallbackEmbedding_nonneg (text : String) :
    ∀ q ∈ rawFallbackEmbedding text, 0 ≤ q := by
  intro q hq
  simp only [rawFallbackEmbedding, List.mem_append] at hq
  rcases hq with (((((((h | h) | h) | h) | h) | h) | h) | h) | h
  · exact catBlock_nonneg _ _ _ (by norm_num) q h
  · exact catBlock_nonneg _ _ _ (by norm_num) q h
  · exact catBlock_nonneg _ _ _ (by norm_num) q h
  · exact catBlock_nonneg _ _ _ (by norm_num) q h
  · exact catBlock_nonneg _ _ _ (by norm_num) q h
  · exact catBlock_nonneg _ _ _ (by norm_num) q h
  · exact catBlock_nonneg _ _ _ (by norm_num) q h
  · exact wordSlots_nonneg _ q h
  · rw [List.eq_of_mem_replicate h]

lemma generateFallbackEmbedding_nonneg (text : String) :
    ∀ x ∈ generateFallbackEmbedding text, 0 ≤ x := by
  intro x hx
  have hraw : ∀ y ∈ toRealList (rawFallbackEmbedding text), 0 ≤ y := by
    intro y hy
    unfold toRealList at hy
    obtain ⟨q, hq, rfl⟩ := List.mem_map.mp hy
    exact_mod_cast rawFallbackEmbedding_nonneg text q hq
  have hx' : x ∈
      (if 0 < l2norm (toRealList (rawFallbackEmbedding text))
       then (toRealList (rawFallbackEmbedding text)).map
         (fun y => y / l2norm (toRealList (rawFallbackEmbedding text)))
       else toRealList (rawFallbackEmbedding text)) := hx
  by_cases h : 0 < l2norm (toRealList (rawFallbackEmbedding text))
  · rw [if_pos h] at hx'
    obtain ⟨y, hy, rfl⟩ := List.mem_map.mp hx'
    exact div_nonneg (hraw y hy) (le_of_lt h)
  · rw [if_neg h] at hx'
    exact hraw x hx'

lemma generateFallbackEmbedding_getD_nonneg (text : String) (i : ℕ) :
    0 ≤ (generateFallbackEmbedding text).getD i 0 := by
  by_cases h : i < (generateFallbackEmbedding text).length
  · rw [List.getD_eq_getElem _ _ h]
    exact generateFallbackEmbedding_nonneg text _ (List.getElem_mem h)
  · rw [List.getD_eq_default _ _ (le_of_not_lt h)]

lemma cosineSimilarity_nonneg_of_nonneg (v1 v2 : List ℝ)
    (h1 : ∀ i, 0 ≤ v1.getD i 0) (h2 : ∀ i, 0 ≤ v2.getD i 0) :
    0 ≤ cosineSimilarity v1 v2 := by
  simp only [cosineSimilarity]
  split_ifs with h
  · exact le_refl 0
  · exact div_nonneg
      (Finset.sum_nonneg fun i _ => mul_nonneg (h1 i) (h2 i))
      (mul_nonneg (Real.sqrt_nonneg _) (Real.sqrt_nonneg _))

/-- Claim C10: every component of a fallback embedding is non-negative
    (out-of-range components read as the default 0), and consequently the
    cosine similarity of two fallback embeddings lies in the unit
    interval. -/
theorem C10_fallback_embedding_nonneg_cosine (t1 t2 : String) (i : ℕ) :
    0 ≤ (generateFallbackEmbedding t1).getD i 0 ∧
    0 ≤ cosineSimilarity (generateFallbackEmbedding t1)
      (generateFallbackEmbedding t2) ∧
    cosineSimilarity (generateFallbackEmbedding t1)
      (generateFallbackEmbedding t2) ≤ 1 :=
  ⟨generateFallbackEmbedding_getD_nonneg t1 i,
   cosineSimilarity_nonneg_of_nonneg _ _
     (generateFallbackEmbedding_getD_nonneg t1)
     (generateFallbackEmbedding_getD_nonneg t2),
   cosineSimilarity_le_one _ _⟩

end RAG

end PH

namespace PH

namespace Scorer

lemma checkCoreRequirements_eq_false_of_color (pt : List Char)
    (qa : QueryAnalysis) (h1 : qa.colors ≠ [])
    (h2 : ∀ c ∈ qa.colors, hasWholeWordL c.data (lowerL pt) = false) :
    checkCoreRequirements pt qa = false := by
  have hempty : qa.colors.isEmpty = false := by
    simpa [List.isEmpty_iff] using h1
  have hany : qa.colors.any
      (fun c => hasWholeWordL c.data (lowerL pt)) = false := by
    rw [List.any_eq_false]
    intro c hc
    simp [h2 c hc]
  simp only [checkCoreRequirements]
  simp [hempty, hany]

/-- Claim C1: if query analysis extracts at least one colour and none of
    the extracted colours occurs as a whole word in the product text, the
    deterministic scorer returns 0 regardless of keyword overlap. -/
theorem C1_color_requirement_gates_score (productText userPrompt : String)
    (hpk : List String)
    (h1 : (analyzeQuery userPrompt).colors ≠ [])
    (h2 : ∀ c ∈ (analyzeQuery userPrompt).colors,
      hasWholeWordL c.data (lowerL productText.data) = false) :
    calculateMatchScore productText userPrompt hpk = 0 := by
  have hempty : (analyzeQuery userPrompt).colors.isEmpty = false := by
    simpa [List.isEmpty_iff] using h1
  have hcheck := checkCoreRequirements_eq_false_of_color productText.data
    (analyzeQuery userPrompt) h1 h2
  simp only [calculateMatchScore]
  simp [hempty, hcheck]

/-- Witness for C1: the spec's end-to-end scenario B — the query
    "white sneakers" against a grey product. -/
theorem C1_color_requirement_gates_score_witness :
    ((analyzeQuery ("white sneakers")).colors ≠ [] ∧
      ∀ c ∈ (analyzeQuery ("white sneakers")).colors,
        hasWholeWordL c.data
          (lowerL ("PULL&BEAR - Sneaker low - grey").data) = false) ∧
    calculateMatchScore ("PULL&BEAR - Sneaker low - grey")
      ("white sneakers") [] = 0 :=
  ⟨⟨by decide, by decide⟩,
   C1_color_requirement_gates_score ("PULL&BEAR - Sneaker low - grey")
     ("white sneakers") [] (by decide) (by decide)⟩

end Scorer

end PH

namespace PH

namespace Scorer

lemma calculateKeywordScore_nonneg (pl : List Char)
    (ks : List (List Char)) : 0 ≤ calculateKeywordScore pl ks := by
  unfold calculateKeywordScore
  split_ifs
  · exact le_refl 0
  · exact div_nonneg (Nat.cast_nonneg _) (Nat.cast_nonneg _)

lemma calculateExactScore_nonneg (pl : List Char) (ks : List (List Char)) :
    0 ≤ calculateExactScore pl ks := by
  unfold calculateExactScore
  split_ifs
  · exact le_refl 0
  · exact div_nonneg (Nat.cast_nonneg _) (Nat.cast_nonneg _)

lemma calculateSemanticSimilarity_nonneg (t1 t2 : List Char) :
    0 ≤ calculateSemanticSimilarity t1 t2 := by
  unfold calculateSemanticSimilarity
  exact div_nonneg (Nat.cast_nonneg _)
    (le_trans zero_le_one (le_max_right _ 1))

lemma calculatePriceScore_nonneg (pt : List Char)
    (pcs : List PriceConstraint) : 0 ≤ calculatePriceScore pt pcs := by
  simp only [calculatePriceScore]
  split_ifs <;> norm_num

lemma calculateBrandScore_nonneg (pl : List Char) (bs : List String) :
    0 ≤ calculateBrandScore pl bs := by
  unfold calculateBrandScore
  split_ifs
  · exact zero_le_one
  · exact div_nonneg (Nat.cast_nonneg _) (Nat.cast_nonneg _)

lemma calculateCategoryScore_nonneg (pl : List Char) (cs : List String) :
    0 ≤ calculateCategoryScore pl cs := by
  unfold calculateCategoryScore
  split_ifs <;> norm_num

lemma calculateColorScore_nonneg (pl : List Char) (cs : List String) :
    0 ≤ calculateColorScore pl cs := by
  unfold calculateColorScore
  split_ifs
  · exact zero_le_one
  · exact div_nonneg (Nat.cast_nonneg _) (Nat.cast_nonneg _)

lemma calculateAttributeScore_nonneg (pl : List Char)
    (attrs : List AttrPair) : 0 ≤ calculateAttributeScore pl attrs := by
  unfold calculateAttributeScore
  split_ifs
  · exact zero_le_one
  · exact div_nonneg (Nat.cast_nonneg _) (Nat.cast_nonneg _)

lemma calculateHighPerformingBoost_nonneg (ks : List (List Char))
    (hpk : List String) : 0 ≤ calculateHighPerformingBoost ks hpk := by
  unfold calculateHighPerformingBoost
  positivity

lemma getAdaptiveWeights_keyword_nonneg (qa : QueryAnalysis) :
    0 ≤ (getAdaptiveWeights qa).keyword := by
  simp only [getAdaptiveWeights]
  split_ifs <;> norm_num

lemma getAdaptiveWeights_exact_nonneg (qa : QueryAnalysis) :
    0 ≤ (getAdaptiveWeights qa).exact := by
  simp only [getAdaptiveWeights]
  norm_num

lemma getAdaptiveWeights_semantic_nonneg (qa : QueryAnalysis) :
    0 ≤ (getAdaptiveWeights qa).semantic := by
  simp only [getAdaptiveWeights]
  norm_num

lemma getAdaptiveWeights_price_nonneg (qa : QueryAnalysis) :
    0 ≤ (getAdaptiveWeights qa).price := by
  simp only [getAdaptiveWeights]
  split_ifs <;> norm_num

lemma getAdaptiveWeights_brand_nonneg (qa : QueryAnalysis) :
    0 ≤ (getAdaptiveWeights qa).brand := by
  simp only [getAdaptiveWeights]
  split_ifs <;> norm_num

lemma getAdaptiveWeights_category_nonneg (qa : QueryAnalysis) :
    0 ≤ (getAdaptiveWeights qa).category := by
  simp only [getAdaptiveWeights]
  norm_num

lemma getAdaptiveWeights_color_nonneg (qa : QueryAnalysis) :
    0 ≤ (getAdaptiveWeights qa).color := by
  simp only [getAdaptiveWeights]
  split_ifs <;> norm_num

lemma getAdaptiveWeights_attributes_nonneg (qa : QueryAnalysis) :
    0 ≤ (getAdaptiveWeights qa).attributes := by
  simp only [getAdaptiveWeights]
  split_ifs <;> norm_num

lemma combineScores_nonneg (s : Scores) (w : Weights)
    (hk : 0 ≤ s.keyword) (he : 0 ≤ s.exact) (hse : 0 ≤ s.semantic)
    (hp : 0 ≤ s.price) (hb : 0 ≤ s.brand) (hc : 0 ≤ s.category)
    (hco : 0 ≤ s.color) (ha : 0 ≤ s.attributes)
    (wk : 0 ≤ w.keyword) (we : 0 ≤ w.exact) (wse : 0 ≤ w.semantic)
    (wp : 0 ≤ w.price) (wb : 0 ≤ w.brand) (wc : 0 ≤ w.category)
    (wco : 0 ≤ w.color) (wa : 0 ≤ w.attributes) :
    0 ≤ combineScores s w := by
  unfold combineScores
  exact add_nonneg (add_nonneg (add_nonneg (add_nonneg (add_nonneg
    (add_nonneg (add_nonneg (mul_nonneg hk wk) (mul_nonneg he we))
      (mul_nonneg hse wse)) (mul_nonneg hp wp)) (mul_nonneg hb wb))
    (mul_nonneg hc wc)) (mul_nonneg hco wco)) (mul_nonneg ha wa)

/-- Claim C6: the deterministic scorer always returns a value in the unit
    interval — every sub-score is non-negative, the weighted combination
    plus the high-performing-keyword boost is clamped at 1, and the simple
    fallback ratio is itself a fraction in the unit interval. -/
theorem C6_score_in_unit_interval (productText userPrompt : String)
    (hpk : List String) :
    0 ≤ calculateMatchScore productText userPrompt hpk ∧
    calculateMatchScore productText userPrompt hpk ≤ 1 := by
  obtain ⟨qa, hqa⟩ : ∃ qa, analyzeQuery userPrompt = qa := ⟨_, rfl⟩
  simp only [calculateMatchScore, hqa]
  split_ifs with h1 h2 h3
  · constructor
    · exact div_nonneg (Nat.cast_nonneg _)
        (le_trans zero_le_one (le_max_right _ 1))
    · rw [div_le_one (lt_of_lt_of_le zero_lt_one (le_max_right _ 1))]
      refine le_trans ?_ (le_max_left _ 1)
      exact_mod_cast List.countP_le_length _
  · norm_num
  · norm_num
  · constructor
    · refine le_min ?_ zero_le_one
      refine add_nonneg ?_ (calculateHighPerformingBoost_nonneg _ _)
      exact combineScores_nonneg _ _
        (calculateKeywordScore_nonneg _ _) (calculateExactScore_nonneg _ _)
        (calculateSemanticSimilarity_nonneg _ _)
        (calculatePriceScore_nonneg _ _) (calculateBrandScore_nonneg _ _)
        (calculateCategoryScore_nonneg (lowerL productText.data) _)
        (calculateColorScore_nonneg _ _)
        (calculateAttributeScore_nonneg _ _)
        (getAdaptiveWeights_keyword_nonneg _)
        (getAdaptiveWeights_exact_nonneg _)
        (getAdaptiveWeights_semantic_nonneg _)
        (getAdaptiveWeights_price_nonneg _)
        (getAdaptiveWeights_brand_nonneg _)
        (getAdaptiveWeights_category_nonneg _)
        (getAdaptiveWeights_color_nonneg _)
        (getAdaptiveWeights_attributes_nonneg _)
    · exact min_le_right _ _

end Scorer

end PH

namespace PH

namespace Scorer

lemma startsWithL_isPre :
    ∀ p cs : List Char, startsWithL p cs = true → p <+: cs
  | [], _, _ => List.nil_prefix
  | p :: ps, [], h => by simp [startsWithL] at h
  | p :: ps, c :: cs, h => by
    simp only [startsWithL, Bool.and_eq_true, beq_iff_eq] at h
    obtain ⟨rfl, h2⟩ := h
    obtain ⟨t, ht⟩ := startsWithL_isPre ps cs h2
    exact ⟨t, by rw [List.cons_append, ht]⟩

lemma startsWithL_append (p r : List Char) :
    startsWithL p (p ++ r) = true := by
  induction p with
  | nil => simp [startsWithL]
  | cons c cs ih => simp [startsWithL, ih]

lemma containsSubL_of_startsWith (p t : List Char)
    (h : startsWithL p t = true) : containsSubL p t = true := by
  cases t with
  | nil => exact h
  | cons c cs =>
    show (startsWithL p (c :: cs) || containsSubL p cs) = true
    rw [h, Bool.true_or]

lemma containsSubL_of_infix (p t : List Char) (h : p <:+: t) :
    containsSubL p t = true := by
  obtain ⟨pre, suf, rfl⟩ := h
  induction pre with
  | nil =>
    rw [List.nil_append]
    exact containsSubL_of_startsWith _ _ (startsWithL_append p suf)
  | cons c pre ih =>
    rw [List.cons_append, List.cons_append]
    show (startsWithL p (c :: (pre ++ p ++ suf)) ||
      containsSubL p (pre ++ p ++ suf)) = true
    rw [ih, Bool.or_true]

lemma firstAltWith_some {β : Type} (alts : List (List Char))
    (cs : List Char) (cont : List Char → Option β) (k : List Char) (b : β)
    (h : firstAltWith alts cs cont = some (k, b)) :
    k ∈ alts ∧ startsWithL k cs = true ∧
      cont (cs.drop k.length) = some b := by
  induction alts with
  | nil => simp [firstAltWith] at h
  | cons a as ih =>
    simp only [firstAltWith] at h
    split_ifs at h with hs
    · rcases hm : cont (cs.drop a.length) with _ | b'
      · rw [hm] at h
        obtain ⟨h1, h2, h3⟩ := ih h
        exact ⟨List.mem_cons_of_mem a h1, h2, h3⟩
      · rw [hm] at h
        obtain ⟨rfl, rfl⟩ : a = k ∧ b' = b := by
          have := Option.some.inj h
          exact ⟨congrArg Prod.fst this, congrArg Prod.snd this⟩
        exact ⟨List.mem_cons_self a as, hs, hm⟩
    · obtain ⟨h1, h2, h3⟩ := ih h
      exact ⟨List.mem_cons_of_mem a h1, h2, h3⟩

lemma parseNum_suffix (cs num rest : List Char)
    (h : parseNum cs = some (num, rest)) : rest <:+ cs := by
  simp only [parseNum] at h
  by_cases hds : (cs.takeWhile jsIsDigit).isEmpty
  · rw [if_pos hds] at h
    simp at h
  · rw [if_neg hds] at h
    rcases hdrop : cs.drop (cs.takeWhile jsIsDigit).length
        with _ | ⟨c, r2⟩ <;> rw [hdrop] at h <;> dsimp only at h
    · simp only [Option.some.injEq, Prod.mk.injEq] at h
      obtain ⟨-, rfl⟩ := h
      exact List.nil_suffix
    · have hcr : c :: r2 <:+ cs := hdrop ▸ List.drop_suffix _ _
      by_cases hc : (c == '.' || c == ',') = true
      · rw [if_pos hc] at h
        by_cases hfs : (r2.takeWhile jsIsDigit).isEmpty
        · rw [if_pos hfs] at h
          simp only [Option.some.injEq, Prod.mk.injEq] at h
          obtain ⟨-, rfl⟩ := h
          exact hcr
        · rw [if_neg hfs] at h
          simp only [Option.some.injEq, Prod.mk.injEq] at h
          obtain ⟨-, rfl⟩ := h
          exact ((List.drop_suffix _ _).trans
            (List.suffix_cons c r2)).trans hcr
      · rw [if_neg hc] at h
        simp only [Option.some.injEq, Prod.mk.injEq] at h
        obtain ⟨-, rfl⟩ := h
        exact hcr

lemma numTail_suffix (cs : List Char) (d : List Char × List Char)
    (rest : List Char) (h : numTail cs = some (d, rest)) : rest <:+ cs := by
  simp only [numTail] at h
  rcases hm : firstAltWith (currencyAlts.map String.data)
      (cs.dropWhile jsIsSpace)
      (fun r => parseNum (r.dropWhile jsIsSpace)) with _ | ⟨cur, num, rest'⟩
  · rw [hm] at h
    rcases hp : parseNum (cs.dropWhile jsIsSpace) with _ | ⟨num, rest''⟩ <;>
      rw [hp] at h
    · simp at h
    · obtain ⟨_, rfl⟩ : _ ∧ rest'' = rest := by
        have := Option.some.inj h
        exact ⟨congrArg Prod.fst this, congrArg Prod.snd this⟩
      exact (parseNum_suffix _ _ _ hp).trans (List.dropWhile_suffix _)
  · rw [hm] at h
    obtain ⟨_, rfl⟩ : _ ∧ rest' = rest := by
      have := Option.some.inj h
      exact ⟨congrArg Prod.fst this, congrArg Prod.snd this⟩
    obtain ⟨_, _, hcont⟩ := firstAltWith_some _ _ _ _ _ hm
    exact (((parseNum_suffix _ _ _ hcont).trans
      (List.dropWhile_suffix _)).trans
      (List.drop_suffix _ _)).trans (List.dropWhile_suffix _)

lemma tryP12_some (kws : List String) (cs : List Char)
    (d : List Char × List Char) (rest : List Char)
    (h : tryP12 kws cs = some (d, rest)) :
    rest <:+ cs ∧ ∃ k ∈ kws, k.data <+: cs := by
  simp only [tryP12] at h
  rcases hf : firstAltWith (kws.map String.data) cs numTail
    with _ | ⟨k, d', rest'⟩ <;> rw [hf] at h
  · simp at h
  · obtain ⟨rfl, rfl⟩ : d' = d ∧ rest' = rest := by
      have := Option.some.inj h
      exact ⟨congrArg Prod.fst this, congrArg Prod.snd this⟩
    obtain ⟨hk, hsw, hcont⟩ := firstAltWith_some _ _ _ _ _ hf
    obtain ⟨k0, hk0, rfl⟩ := List.mem_map.mp hk
    exact ⟨(numTail_suffix _ _ _ hcont).trans (List.drop_suffix _ _),
      k0, hk0, startsWithL_isPre _ _ hsw⟩

lemma scanPat_mem_tryM {α : Type}
    (tryM : List Char → Option (α × List Char))
    (hsuf : ∀ s a rest, tryM s = some (a, rest) → rest <:+ s) :
    ∀ (f : ℕ) (cs : List Char) (a : α), a ∈ scanPat tryM f cs →
      ∃ s, s <:+ cs ∧ ∃ rest, tryM s = some (a, rest) := by
  intro f
  induction f with
  | zero => intro cs a ha; simp [scanPat] at ha
  | succ f ih =>
    intro cs a ha
    cases cs with
    | nil => simp [scanPat] at ha
    | cons c cs' =>
      simp only [scanPat] at ha
      rcases hm : tryM (c :: cs') with _ | ⟨d, rest⟩ <;> rw [hm] at ha
      · obtain ⟨s, hs, hr⟩ := ih cs' a ha
        exact ⟨s, hs.trans (List.suffix_cons c cs'), hr⟩
      · rcases List.mem_cons.mp ha with rfl | ha'
        · exact ⟨c :: cs', List.suffix_refl _, rest, hm⟩
        · obtain ⟨s, hs, hr⟩ := ih rest a ha'
          exact ⟨s, hs.trans (hsuf _ _ _ hm), hr⟩

lemma hasMaxCue_of_p1_match (prompt : List Char)
    (d : List Char × List Char)
    (hd : d ∈ scanAll (tryP12 maxKeywords) prompt) :
    hasMaxCue prompt = true := by
  obtain ⟨s, hs, rest, hm⟩ := scanPat_mem_tryM _
    (fun s a r h => (tryP12_some _ _ _ _ h).1) _ _ _ hd
  obtain ⟨k, hk, hpre⟩ := (tryP12_some _ _ _ _ hm).2
  have hinf : ∀ cue : List Char, cue <+: k.data →
      containsSubL cue prompt = true := fun cue hcue =>
    containsSubL_of_infix cue prompt
      ((hcue.trans hpre).isInfix.trans hs.isInfix)
  simp only [maxKeywords] at hk
  unfold hasMaxCue
  fin_cases hk
  · rw [hinf (("under").data) (by decide)]
    simp
  · rw [hinf (("below").data) (by decide)]
    simp
  · rw [hinf (("less").data) (by decide)]
    simp
  · rw [hinf (("max").data) (by decide)]
    simp
  · rw [hinf (("max").data) (by decide)]
    simp

lemma mkConstraint12_ctype (prompt : List Char)
    (d : List Char × List Char) (c : PriceConstraint)
    (h : mkConstraint12 prompt d = some c) : c.ctype = cueType prompt := by
  simp only [mkConstraint12] at h
  rcases hp : jsParseFloatQ (if d.1.isEmpty then d.2 else d.1)
    with _ | v <;> rw [hp] at h
  · simp at h
  · rw [← Option.some.inj h]

lemma mkConstraint3_ctype (prompt : List Char)
    (d : List Char × List Char) (c : PriceConstraint)
    (h : mkConstraint3 prompt d = some c) : c.ctype = cueType prompt := by
  simp only [mkConstraint3] at h
  rcases hp : jsParseFloatQ (if d.1.isEmpty then d.2 else d.1)
    with _ | v <;> rw [hp] at h
  · simp at h
  · rw [← Option.some.inj h]

lemma mkConstraint4_ctype (prompt : List Char)
    (d : List Char × List Char) (c : PriceConstraint)
    (h : mkConstraint4 prompt d = some c) : c.ctype = cueType prompt := by
  simp only [mkConstraint4] at h
  rcases hp : jsParseFloatQ d.2 with _ | v <;> rw [hp] at h
  · simp at h
  · rw [← Option.some.inj h]

/-- Claim C8 (amended): a constraint extracted by a phrase of the
    under/below/less-than/max patterns always has type `max`; but the type
    of every extracted constraint — including those from the
    above/over/more-than/min patterns — is computed from whole-prompt
    substring checks (`cueType`): it is `min` only when the prompt contains
    none of the substrings "under", "below", "less", "max". -/
theorem C8_price_constraint_types (prompt : List Char) :
    (∀ c ∈ constraintsP1 prompt, c.ctype = CType.max) ∧
    (∀ c ∈ extractPriceConstraints prompt, c.ctype = cueType prompt) := by
  have hall : ∀ c ∈ extractPriceConstraints prompt,
      c.ctype = cueType prompt := by
    intro c hc
    simp only [extractPriceConstraints, List.mem_append] at hc
    rcases hc with ((hc | hc) | hc) | hc
    · obtain ⟨d, _, hmk⟩ := List.mem_filterMap.mp hc
      exact mkConstraint12_ctype _ _ _ hmk
    · obtain ⟨d, _, hmk⟩ := List.mem_filterMap.mp hc
      exact mkConstraint12_ctype _ _ _ hmk
    · obtain ⟨d, _, hmk⟩ := List.mem_filterMap.mp hc
      exact mkConstraint3_ctype _ _ _ hmk
    · obtain ⟨d, _, hmk⟩ := List.mem_filterMap.mp hc
      exact mkConstraint4_ctype _ _ _ hmk
  refine ⟨?_, hall⟩
  intro c hc
  obtain ⟨d, hd, hmk⟩ := List.mem_filterMap.mp hc
  have hcue := hasMaxCue_of_p1_match prompt d hd
  rw [mkConstraint12_ctype _ _ _ hmk]
  unfold cueType
  rw [hcue]
  rfl

/-- Counterexample for C8 as stated: in the prompt "under 30 or over 50",
    the constraint extracted from the min-pattern phrase "over 50" has type
    `max` (and so the full extraction yields two `max` constraints),
    because the type flag is computed from whole-prompt substring tests,
    not from the pattern that matched. -/
theorem C8_price_constraint_types_counterexample :
    (constraintsP2 (lowerL ("under 30 or over 50").data)).map
      PriceConstraint.ctype = [CType.max] ∧
    (extractPriceConstraints (lowerL ("under 30 or over 50").data)).map
      PriceConstraint.ctype = [CType.max, CType.max] := by
  constructor <;> decide

/-- Witness for C8 applied to the prompt "under 30 or over 50". -/
theorem C8_price_constraint_types_witness :
    (constraintsP1 (lowerL ("under 30 or over 50").data)).length = 1 ∧
    (constraintsP1 (lowerL ("under 30 or over 50").data)).all
      (fun c => c.ctype == CType.max) = true ∧
    (extractPriceConstraints (lowerL ("under 30 or over 50").data)).all
      (fun c => c.ctype ==
        cueType (lowerL ("under 30 or over 50").data)) = true := by
  refine ⟨by decide, ?_, ?_⟩
  · rw [List.all_eq_true]
    intro c hc
    simpa using (C8_price_constraint_types _).1 c hc
  · rw [List.all_eq_true]
    intro c hc
    simpa using (C8_price_constraint_types _).2 c hc

end Scorer

end PH

namespace PH

namespace RAG

lemma mem_dropWhile_of_not (p : Char → Bool) (c : Char) (l : List Char)
    (hc : p c = false) (hm : c ∈ l) : c ∈ l.dropWhile p := by
  induction l with
  | nil => cases hm
  | cons x xs ih =>
    rw [List.dropWhile_cons]
    split_ifs with hx
    · rcases List.mem_cons.mp hm with rfl | hm'
      · rw [hx] at hc
        cases hc
      · exact ih hm'
    · exact hm

lemma trimL_ne_nil (w : List Char) (c : Char) (hc : jsIsSpace c = false)
    (hm : c ∈ w) : trimL w ≠ [] := by
  unfold trimL
  intro h
  rw [List.reverse_eq_nil_iff] at h
  have h1 : c ∈ (w.dropWhile jsIsSpace).reverse :=
    List.mem_reverse.mpr (mem_dropWhile_of_not _ c w hc hm)
  have h2 := mem_dropWhile_of_not jsIsSpace c _ hc h1
  rw [h] at h2
  cases h2

lemma trimL_length_le (w : List Char) : (trimL w).length ≤ w.length := by
  unfold trimL
  rw [List.length_reverse]
  refine le_trans (List.dropWhile_suffix jsIsSpace).length_le ?_
  rw [List.length_reverse]
  exact (List.dropWhile_suffix jsIsSpace).length_le

lemma two_le_countP {α : Type} (p : α → Bool) :
    ∀ (l : List α) (i j : ℕ) (hij : i < j) (hj : j < l.length),
      p (l.get ⟨i, lt_trans hij hj⟩) = true → p (l.get ⟨j, hj⟩) = true →
      2 ≤ l.countP p
  | [], _, _, _, hj, _, _ => by simp at hj
  | _ :: _, _, 0, hij, _, _, _ => by omega
  | x :: xs, 0, j + 1, _, hj, hpi, hpj => by
    rw [List.countP_cons]
    have h0 : p x = true := hpi
    have hpos : 0 < xs.countP p :=
      List.countP_pos_iff.mpr ⟨_, List.get_mem xs _ _, hpj⟩
    rw [h0]
    simp only [if_pos]
    omega
  | x :: xs, i + 1, j + 1, hij, hj, hpi, hpj => by
    rw [List.countP_cons]
    have := two_le_countP p xs i j (by omega) (by simpa using hj) hpi hpj
    omega

lemma length_filterMap_eq_countP {α β : Type} (f : α → Option β)
    (l : List α) :
    (l.filterMap f).length = l.countP (fun a => (f a).isSome) := by
  induction l with
  | nil => rfl
  | cons x xs ih =>
    rw [List.filterMap_cons, List.countP_cons]
    cases hf : f x
    · simp [hf, ih]
    · simp [hf, ih]

lemma lt_numWindows160 (len k : ℕ) (h : k * 160 < len) :
    k < numWindows len 160 := by
  unfold numWindows
  rw [if_neg (by norm_num)]
  rw [Nat.lt_iff_add_one_le, Nat.le_div_iff_mul_le (by norm_num : 0 < 160)]
  omega

lemma window_length (text : List Char) (k : ℕ) :
    (window text 200 160 k).length = min 200 (text.length - k * 160) := by
  unfold window
  rw [List.length_take, List.length_drop]

lemma window_getD (text : List Char) (k m : ℕ) (h2 : m < 200)
    (hj : k * 160 + m < text.length) :
    (window text 200 160 k).getD m ' ' = text.getD (k * 160 + m) ' ' := by
  have hlen : m < (window text 200 160 k).length := by
    rw [window_length]
    omega
  rw [List.getD_eq_getElem _ _ hlen, List.getD_eq_getElem _ _ hj]
  unfold window
  rw [List.getElem_take, ← List.getElem_drop']

lemma window_nonblank (text : List Char) (k m : ℕ) (h2 : m < 200)
    (hj : k * 160 + m < text.length)
    (hns : jsIsSpace (text.getD (k * 160 + m) ' ') = false) :
    (trimL (window text 200 160 k)).isEmpty = false := by
  have hlen : m < (window text 200 160 k).length := by
    rw [window_length]
    omega
  have hmem : (window text 200 160 k).getD m ' ' ∈ window text 200 160 k := by
    rw [List.getD_eq_getElem _ _ hlen]
    exact List.getElem_mem hlen
  have hne := trimL_ne_nil _ _
    (by rw [window_getD text k m h2 hj]; exact hns) hmem
  cases h : (trimL (window text 200 160 k)).isEmpty
  · rfl
  · exact absurd (List.isEmpty_iff.mp h) hne

lemma splitIntoChunks_eq (text : String) :
    splitIntoChunks text 200 =
      ((List.range (numWindows text.data.length 160)).map
        (fun k => window text.data 200 160 k)).filterMap
        (fun w => if (trimL w).isEmpty then none
          else some (String.mk (trimL w))) := by
  simp [splitIntoChunks]

lemma two_le_length_splitIntoChunks (text : String) (i j : ℕ)
    (hi : i < 160) (hins : jsIsSpace (text.data.getD i ' ') = false)
    (hj160 : 160 ≤ j) (hjlen : j < text.data.length)
    (hjns : jsIsSpace (text.data.getD j ' ') = false) :
    2 ≤ (splitIntoChunks text 200).length := by
  rw [splitIntoChunks_eq, length_filterMap_eq_countP]
  rw [List.countP_congr (fun w _ => by
    by_cases h : (trimL w).isEmpty <;>
      simp [h] :
    ∀ w ∈ (List.range (numWindows text.data.length 160)).map
      (fun k => window text.data 200 160 k),
      ((if (trimL w).isEmpty then none
        else some (String.mk (trimL w))).isSome = true) ↔
      ((!(trimL w).isEmpty) = true))]
  rw [List.countP_map]
  have hk2pos : 0 < j / 160 := by omega
  have hk2lt : j / 160 < numWindows text.data.length 160 :=
    lt_numWindows160 _ _ (by omega)
  have h0lt : 0 < numWindows text.data.length 160 :=
    lt_numWindows160 _ _ (by omega)
  refine two_le_countP _ (List.range _) 0 (j / 160) hk2pos
    (by simpa using hk2lt) ?_ ?_
  · have hget : (List.range (numWindows text.data.length 160)).get
        ⟨0, lt_trans hk2pos (by simpa using hk2lt)⟩ = 0 := by
      rw [List.get_eq_getElem, List.getElem_range]
    rw [hget]
    show (!(trimL (window text.data 200 160 0)).isEmpty) = true
    rw [window_nonblank text.data 0 i (by omega) (by omega)
      (by simpa using hins)]
    rfl
  · have hget : (List.range (numWindows text.data.length 160)).get
        ⟨j / 160, by simpa using hk2lt⟩ = j / 160 := by
      rw [List.get_eq_getElem, List.getElem_range]
    rw [hget]
    show (!(trimL (window text.data 200 160 (j / 160))).isEmpty) = true
    rw [window_nonblank text.data (j / 160) (j % 160) (by omega) (by omega)
      (by rw [show j / 160 * 160 + j % 160 = j from by omega]; exact hjns)]
    rfl

lemma countDesc_chunkProductInfo_long (embed : String → List ℝ)
    (ctx : ProductContext) (pid : String)
    (hlen : 200 < ctx.fullText.length) :
    countDesc (chunkProductInfo embed 200 ctx pid) =
      (splitIntoChunks ctx.fullText 200).length := by
  simp only [countDesc, chunkProductInfo]
  rw [List.countP_map]
  have hcomp : ((fun c : PChunk => c.kind == ChunkKind.description) ∘
      (fun c : PChunk => { c with embedding := embed c.content })) =
      (fun c : PChunk => c.kind == ChunkKind.description) := by
    funext c
    rfl
  rw [hcomp, List.countP_append, List.countP_append]
  have hfalse1 : (ChunkKind.title_brand == ChunkKind.description) = false :=
    by decide
  have hfalse2 : (ChunkKind.attributes == ChunkKind.description) = false :=
    by decide
  have htb : List.countP (fun c : PChunk => c.kind == ChunkKind.description)
      (if ctx.title ≠ "" ∨ ctx.brand ≠ "" then
        [{ productId := pid, kind := ChunkKind.title_brand,
           content := trimS (ctx.brand ++ (" ") ++ ctx.title) }]
       else []) = 0 := by
    split_ifs <;> simp [List.countP_cons, hfalse1]
  have hattr : List.countP
      (fun c : PChunk => c.kind == ChunkKind.description)
      (if (attributeLines ctx).isEmpty then []
       else [{ productId := pid, kind := ChunkKind.attributes,
               content := joinSep (". ") (attributeLines ctx) }]) = 0 := by
    split_ifs <;> simp [List.countP_cons, hfalse2]
  rw [htb, hattr, if_pos hlen]
  have hdesc : List.countP
      (fun c : PChunk => c.kind == ChunkKind.description)
      ((splitIntoChunks ctx.fullText 200).mapIdx
        (fun i c => { productId := pid, kind := ChunkKind.description,
                      content := c, chunkIndex := some i })) =
      (splitIntoChunks ctx.fullText 200).length := by
    rw [← List.length_mapIdx]
    refine List.countP_eq_length.mpr fun a ha => ?_
    obtain ⟨ii, hii, rfl⟩ := List.mem_mapIdx.mp ha
    rfl
  rw [hdesc]
  omega

end RAG

end PH

namespace PH

namespace RAG

lemma splitIntoChunks_content_le (text : String) (s : String)
    (hs : s ∈ splitIntoChunks text 200) : s.length ≤ 200 := by
  rw [splitIntoChunks_eq] at hs
  obtain ⟨w, hw, hmk⟩ := List.mem_filterMap.mp hs
  obtain ⟨k, _, rfl⟩ := List.mem_map.mp hw
  by_cases hb : (trimL (window text.data 200 160 k)).isEmpty
  · rw [if_pos hb] at hmk
    cases hmk
  · rw [if_neg hb] at hmk
    rw [← Option.some.inj hmk]
    show (trimL (window text.data 200 160 k)).length ≤ 200
    refine le_trans (trimL_length_le _) ?_
    rw [window_length]
    omega

/-- Claim C7 (amended): a product context with non-empty title always
    yields a `title_brand` chunk; every `description` chunk holds at most
    200 characters; consecutive raw 200-character windows overlap in
    exactly 40 characters (20% of the chunk size); and a full text longer
    than 200 characters yields more than one `description` chunk provided
    it has a non-whitespace character before index 160 and another at
    index 160 or later — windows that trim to the empty string are
    dropped, which is what the counterexample exploits. -/
theorem C7_chunking (embed : String → List ℝ) (ctx : ProductContext)
    (pid : String) :
    (ctx.title ≠ "" →
      ∃ c ∈ chunkProductInfo embed 200 ctx pid,
        c.kind = ChunkKind.title_brand) ∧
    (∀ c ∈ chunkProductInfo embed 200 ctx pid,
      c.kind = ChunkKind.description → c.content.length ≤ 200) ∧
    (∀ k, (window ctx.fullText.data 200 160 k).drop 160 =
      (window ctx.fullText.data 200 160 (k + 1)).take 40) ∧
    (200 < ctx.fullText.length →
      (∃ i, i < 160 ∧ jsIsSpace (ctx.fullText.data.getD i ' ') = false) →
      (∃ j, 160 ≤ j ∧ j < ctx.fullText.length ∧
        jsIsSpace (ctx.fullText.data.getD j ' ') = false) →
      1 < countDesc (chunkProductInfo embed 200 ctx pid)) := by
  refine ⟨?_, ?_, ?_, ?_⟩
  · intro h
    refine ⟨_, List.mem_map.mpr ⟨⟨pid, ChunkKind.title_brand,
      trimS (ctx.brand ++ (" ") ++ ctx.title), none, []⟩, ?_, rfl⟩, rfl⟩
    refine List.mem_append_left _ (List.mem_append_left _ ?_)
    rw [if_pos (Or.inl h)]
    exact List.mem_singleton.mpr rfl
  · intro c hc hkind
    simp only [chunkProductInfo] at hc
    obtain ⟨c0, hc0, rfl⟩ := List.mem_map.mp hc
    rcases List.mem_append.mp hc0 with h01 | h02
    · rcases List.mem_append.mp h01 with htb | hattr
      · by_cases hcond : ctx.title ≠ "" ∨ ctx.brand ≠ ""
        · rw [if_pos hcond, List.mem_singleton] at htb
          subst htb
          simp at hkind
        · rw [if_neg hcond] at htb
          cases htb
      · by_cases hcond : (attributeLines ctx).isEmpty
        · rw [if_pos hcond] at hattr
          cases hattr
        · rw [if_neg hcond, List.mem_singleton] at hattr
          subst hattr
          simp at hkind
    · by_cases hlong : 200 < ctx.fullText.length
      · rw [if_pos hlong] at h02
        obtain ⟨ii, hii, rfl⟩ := List.mem_mapIdx.mp h02
        exact splitIntoChunks_content_le ctx.fullText _
          (List.getElem_mem hii)
      · rw [if_neg hlong] at h02
        by_cases hne : ctx.fullText ≠ ""
        · rw [if_pos hne, List.mem_singleton] at h02
          subst h02
          show ctx.fullText.length ≤ 200
          omega
        · rw [if_neg hne] at h02
          cases h02
  · intro k
    unfold window
    rw [List.drop_take, List.drop_drop, List.take_take]
    have harith : k * 160 + 160 = (k + 1) * 160 := by ring
    rw [harith]
    norm_num
  · intro hlong h1 h2
    obtain ⟨i, hi, hins⟩ := h1
    obtain ⟨j, hj160, hjlen, hjns⟩ := h2
    rw [countDesc_chunkProductInfo_long embed ctx pid hlong]
    have := two_le_length_splitIntoChunks ctx.fullText i j hi hins hj160
      (by exact hjlen) hjns
    omega

set_option maxRecDepth 100000 in
/-- Counterexample for C7 as stated: a 201-character full text whose final
    window is all whitespace is longer than the 200-character threshold but
    yields exactly one `description` chunk, because the second window trims
    to the empty string and is dropped. -/
theorem C7_chunking_counterexample :
    200 < ctxBlankTail.fullText.length ∧
    ¬ 1 < countDesc (chunkProductInfo (fun _ => ([] : List ℝ)) 200
      ctxBlankTail ("p1")) := by
  constructor
  · decide
  · decide

set_option maxRecDepth 100000 in
/-- Witness for C7 applied to a 250-character non-blank full text. -/
theorem C7_chunking_witness :
    (∃ c ∈ chunkProductInfo (fun _ => ([] : List ℝ)) 200 ctxLongText
      ("p2"), c.kind = ChunkKind.title_brand) ∧
    1 < countDesc (chunkProductInfo (fun _ => ([] : List ℝ)) 200
      ctxLongText ("p2")) :=
  ⟨(C7_chunking _ ctxLongText _).1 (by decide),
   (C7_chunking _ ctxLongText _).2.2.2 (by decide)
     ⟨0, by decide, by decide⟩ ⟨160, by decide, by decide, by decide⟩⟩

end RAG

end PH
